import Mathlib

/-!
Verification of the gyre ZRE engine against its specification.

The wire codec section embeds the generated ZRE v2 message codec
(`zre/msg`: hello, whisper, shout, join, leave, ping, ping_ok with the
shared helpers `putString`, `putLongString`, `putBytes` and their
readers from `msg.go`).  Bytes are modelled as natural numbers, byte
sequences as `List Nat`; Go's `byte`, `uint16`, `uint32`, `uint64`
writers truncate with an explicit `% 2 ^ w`.

The engine section embeds the single-threaded node actor (`node.go`),
the per-peer mailbox state (`peer.go`) and the group container
(`group.go`).  Go maps are modelled as association lists whose order
stands for the iteration order the runtime happens to choose; transport
sends take an explicit success flag, standing for the environment
deciding whether the non-blocking send returns an error.
-/

namespace ZreMsg

/-- Protocol signature `0xAAA0 | 1`, as in `msg.go`. -/
@[reducible] def Signature : Nat := 43681

/-- Short strings are truncated to this many bytes by `putString`. -/
@[reducible] def StringMax : Nat := 255

@[reducible] def HelloId : Nat := 1
@[reducible] def WhisperId : Nat := 2
@[reducible] def ShoutId : Nat := 3
@[reducible] def JoinId : Nat := 4
@[reducible] def LeaveId : Nat := 5
@[reducible] def PingId : Nat := 6
@[reducible] def PingOkId : Nat := 7

/-- Write one byte, big-endian (Go `binary.Write` of a `byte`). -/
def putU8 (v : Nat) : List Nat := [v % 256]

/-- Write a `uint16`, big-endian. -/
def putU16 (v : Nat) : List Nat := [v / 256 % 256, v % 256]

/-- Write a `uint32`, big-endian. -/
def putU32 (v : Nat) : List Nat :=
  [v / 16777216 % 256, v / 65536 % 256, v / 256 % 256, v % 256]

/-- Write a `uint64`, big-endian. -/
def putU64 (v : Nat) : List Nat :=
  [v / 72057594037927936 % 256, v / 281474976710656 % 256,
   v / 1099511627776 % 256, v / 4294967296 % 256,
   v / 16777216 % 256, v / 65536 % 256, v / 256 % 256, v % 256]

/-- Read one byte; an exhausted buffer leaves the zero value. -/
def readU8 : List Nat → Nat × List Nat
  | [] => (0, [])
  | a :: r => (a, r)

/-- Read a big-endian `uint16`. -/
def readU16 : List Nat → Nat × List Nat
  | a :: b :: r => (a * 256 + b, r)
  | _ => (0, [])

/-- Read a big-endian `uint32`. -/
def readU32 : List Nat → Nat × List Nat
  | a :: b :: c :: d :: r =>
      (a * 16777216 + b * 65536 + c * 256 + d, r)
  | _ => (0, [])

/-- Read a big-endian `uint64`. -/
def readU64 : List Nat → Nat × List Nat
  | a :: b :: c :: d :: e :: f :: g :: h :: r =>
      (a * 72057594037927936 + b * 281474976710656 +
       c * 1099511627776 + d * 4294967296 +
       e * 16777216 + f * 65536 + g * 256 + h, r)
  | _ => (0, [])

/-- Read exactly `n` raw bytes; a short buffer fails the full read. -/
def readNBytes (n : Nat) (l : List Nat) : List Nat × List Nat :=
  if n ≤ l.length then (l.take n, l.drop n) else ([], [])

/-- `putString` from `msg.go`: 1-byte length, truncating the data at
255 bytes. -/
def putString (s : List Nat) : List Nat :=
  min s.length StringMax :: s.take (min s.length StringMax)

/-- `getString` from `msg.go`: read the 1-byte length then that many
bytes. -/
def getString (l : List Nat) : List Nat × List Nat :=
  let p := readU8 l
  readNBytes p.1 p.2

/-- `putLongString` from `msg.go`: 4-byte length then all the bytes. -/
def putLongString (s : List Nat) : List Nat :=
  putU32 s.length ++ s

/-- `getLongString` from `msg.go`. -/
def getLongString (l : List Nat) : List Nat × List Nat :=
  let p := readU32 l
  readNBytes p.1 p.2

/-- `putBytes` from `msg.go`: 8-byte length then the data. -/
def putBytes (d : List Nat) : List Nat :=
  putU64 d.length ++ d

/-- `getBytes` from `msg.go`. -/
def getBytes (l : List Nat) : List Nat × List Nat :=
  let p := readU64 l
  readNBytes p.1 p.2

/-- Read `n` long strings in order (the `Groups` loop of
`Hello.Unmarshal`). -/
def readLongStrings : Nat → List Nat → List (List Nat) × List Nat
  | 0, l => ([], l)
  | n + 1, l =>
      let p := getLongString l
      let q := readLongStrings n p.2
      (p.1 :: q.1, q.2)

/-- Read `n` short-key / long-value pairs in order (the `Headers` loop
of `Hello.Unmarshal`). -/
def readKeyVals : Nat → List Nat → List (List Nat × List Nat) × List Nat
  | 0, l => ([], l)
  | n + 1, l =>
      let k := getString l
      let v := getLongString k.2
      let q := readKeyVals n v.2
      ((k.1, v.1) :: q.1, q.2)

/-- The HELLO message body (`Hello` struct of the v2 codec).  `Headers`
is kept as the key/value sequence in the iteration order the Go runtime
chooses for the map; the map value itself is that list up to
permutation. -/
structure Hello where
  sequence : Nat
  Endpoint : List Nat
  Groups : List (List Nat)
  Status : Nat
  Name : List Nat
  Headers : List (List Nat × List Nat)
  deriving DecidableEq, Repr

structure Whisper where
  sequence : Nat
  Content : List Nat
  deriving DecidableEq, Repr

structure Shout where
  sequence : Nat
  Group : List Nat
  Content : List Nat
  deriving DecidableEq, Repr

structure Join where
  sequence : Nat
  Group : List Nat
  Status : Nat
  deriving DecidableEq, Repr

structure Leave where
  sequence : Nat
  Group : List Nat
  Status : Nat
  deriving DecidableEq, Repr

structure Ping where
  sequence : Nat
  deriving DecidableEq, Repr

structure PingOk where
  sequence : Nat
  deriving DecidableEq, Repr

/-- Common frame header: signature, message id, version byte `2`
(written as a constant by every `Marshal`), sequence. -/
def putHeader (id seq : Nat) : List Nat :=
  putU16 Signature ++ putU8 id ++ putU8 2 ++ putU16 seq

/-- `Hello.Marshal`. -/
def Hello.Marshal (h : Hello) : List Nat :=
  putHeader HelloId h.sequence ++
  putString h.Endpoint ++
  putU32 h.Groups.length ++ (h.Groups.map putLongString).flatten ++
  putU8 h.Status ++
  putString h.Name ++
  putU32 h.Headers.length ++
  (h.Headers.map (fun kv => putString kv.1 ++ putLongString kv.2)).flatten

/-- `Whisper.Marshal`: content is a byte block inside the body frame. -/
def Whisper.Marshal (w : Whisper) : List Nat :=
  putHeader WhisperId w.sequence ++ putBytes w.Content

/-- `Shout.Marshal`. -/
def Shout.Marshal (s : Shout) : List Nat :=
  putHeader ShoutId s.sequence ++ putString s.Group ++ putBytes s.Content

/-- `Join.Marshal`. -/
def Join.Marshal (j : Join) : List Nat :=
  putHeader JoinId j.sequence ++ putString j.Group ++ putU8 j.Status

/-- `Leave.Marshal`. -/
def Leave.Marshal (l : Leave) : List Nat :=
  putHeader LeaveId l.sequence ++ putString l.Group ++ putU8 l.Status

/-- `Ping.Marshal`. -/
def Ping.Marshal (p : Ping) : List Nat :=
  putHeader PingId p.sequence

/-- `PingOk.Marshal`. -/
def PingOk.Marshal (p : PingOk) : List Nat :=
  putHeader PingOkId p.sequence

/-- Read and check signature, id and version; return the rest of the
frame.  Mirrors the prologue shared by every `Unmarshal`. -/
def checkHeader (id : Nat) (frame : List Nat) : Option (Nat × List Nat) :=
  let s := readU16 frame
  if s.1 = Signature then
    let i := readU8 s.2
    if i.1 = id then
      let v := readU8 i.2
      if v.1 = 2 then some (readU16 v.2) else none
    else none
  else none

/-- `Hello.Unmarshal` on the body frame. -/
def Hello.Unmarshal (frame : List Nat) : Option Hello :=
  match checkHeader HelloId frame with
  | none => none
  | some (seq, r) =>
      let ep := getString r
      let gc := readU32 ep.2
      let gs := readLongStrings gc.1 gc.2
      let st := readU8 gs.2
      let nm := getString st.2
      let hc := readU32 nm.2
      let hs := readKeyVals hc.1 hc.2
      some ⟨seq, ep.1, gs.1, st.1, nm.1, hs.1⟩

/-- `Whisper.Unmarshal`. -/
def Whisper.Unmarshal (frame : List Nat) : Option Whisper :=
  match checkHeader WhisperId frame with
  | none => none
  | some (seq, r) =>
      let c := getBytes r
      some ⟨seq, c.1⟩

/-- `Shout.Unmarshal`. -/
def Shout.Unmarshal (frame : List Nat) : Option Shout :=
  match checkHeader ShoutId frame with
  | none => none
  | some (seq, r) =>
      let g := getString r
      let c := getBytes g.2
      some ⟨seq, g.1, c.1⟩

/-- `Join.Unmarshal`. -/
def Join.Unmarshal (frame : List Nat) : Option Join :=
  match checkHeader JoinId frame with
  | none => none
  | some (seq, r) =>
      let g := getString r
      let st := readU8 g.2
      some ⟨seq, g.1, st.1⟩

/-- `Leave.Unmarshal`. -/
def Leave.Unmarshal (frame : List Nat) : Option Leave :=
  match checkHeader LeaveId frame with
  | none => none
  | some (seq, r) =>
      let g := getString r
      let st := readU8 g.2
      some ⟨seq, g.1, st.1⟩

/-- `Ping.Unmarshal`. -/
def Ping.Unmarshal (frame : List Nat) : Option Ping :=
  match checkHeader PingId frame with
  | none => none
  | some (seq, _) => some ⟨seq⟩

/-- `PingOk.Unmarshal`. -/
def PingOk.Unmarshal (frame : List Nat) : Option PingOk :=
  match checkHeader PingOkId frame with
  | none => none
  | some (seq, _) => some ⟨seq⟩

/-- The `Transit` sum of the seven protocol message kinds. -/
inductive Transit where
  | hello : Hello → Transit
  | whisper : Whisper → Transit
  | shout : Shout → Transit
  | join : Join → Transit
  | leave : Leave → Transit
  | ping : Ping → Transit
  | pingOk : PingOk → Transit
  deriving DecidableEq, Repr

/-- Kind dispatch of `Marshal`. -/
def Marshal : Transit → List Nat
  | .hello h => h.Marshal
  | .whisper w => w.Marshal
  | .shout s => s.Marshal
  | .join j => j.Marshal
  | .leave l => l.Marshal
  | .ping p => p.Marshal
  | .pingOk p => p.Marshal

/-- The generic `Unmarshal` of `msg.go`: check the signature, read the
message id and dispatch to the per-kind unmarshaller (which re-reads
the frame from the start). -/
def Unmarshal (frame : List Nat) : Option Transit :=
  let s := readU16 frame
  if s.1 = Signature then
    let i := readU8 s.2
    if i.1 = HelloId then (Hello.Unmarshal frame).map .hello
    else if i.1 = WhisperId then (Whisper.Unmarshal frame).map .whisper
    else if i.1 = ShoutId then (Shout.Unmarshal frame).map .shout
    else if i.1 = JoinId then (Join.Unmarshal frame).map .join
    else if i.1 = LeaveId then (Leave.Unmarshal frame).map .leave
    else if i.1 = PingId then (Ping.Unmarshal frame).map .ping
    else if i.1 = PingOkId then (PingOk.Unmarshal frame).map .pingOk
    else none
  else none

/-- A message whose fields fit the ranges the Go struct types impose:
`uint16` sequence, `byte` status, short strings at most 255 bytes, long
strings below `2 ^ 32` bytes, collection counts representable in the
4-byte count field, content below `2 ^ 64` bytes. -/
def Valid : Transit → Prop
  | .hello h =>
      h.sequence < 65536 ∧ h.Endpoint.length ≤ 255 ∧
      h.Groups.length < 4294967296 ∧
      (∀ g ∈ h.Groups, g.length < 4294967296) ∧
      h.Status < 256 ∧ h.Name.length ≤ 255 ∧
      h.Headers.length < 4294967296 ∧
      (∀ kv ∈ h.Headers, kv.1.length ≤ 255 ∧ kv.2.length < 4294967296)
  | .whisper w => w.sequence < 65536 ∧ w.Content.length < 18446744073709551616
  | .shout s =>
      s.sequence < 65536 ∧ s.Group.length ≤ 255 ∧
      s.Content.length < 18446744073709551616
  | .join j => j.sequence < 65536 ∧ j.Group.length ≤ 255 ∧ j.Status < 256
  | .leave l => l.sequence < 65536 ∧ l.Group.length ≤ 255 ∧ l.Status < 256
  | .ping p => p.sequence < 65536
  | .pingOk p => p.sequence < 65536

instance : DecidablePred Valid := by
  intro t
  cases t <;> simp only [Valid] <;> infer_instance

end ZreMsg

namespace Gyre

/-- Association-list lookup: Go map read (first binding wins). -/
def lookupA {α : Type} : List (String × α) → String → Option α
  | [], _ => none
  | kv :: r, k => if kv.1 = k then some kv.2 else lookupA r k

/-- Association-list write: Go map assignment (replace or append). -/
def insertA {α : Type} : List (String × α) → String → α → List (String × α)
  | [], k, v => [(k, v)]
  | kv :: r, k, v => if kv.1 = k then (k, v) :: r else kv :: insertA r k v

/-- Association-list delete: Go `delete` builtin. -/
def removeA {α : Type} : List (String × α) → String → List (String × α)
  | [], _ => []
  | kv :: r, k => if kv.1 = k then removeA r k else kv :: removeA r k

/-- Update the value bound to a key in place. -/
def updateA {α : Type} (l : List (String × α)) (k : String) (f : α → α) :
    List (String × α) :=
  l.map (fun kv => (kv.1, if kv.1 = k then f kv.2 else kv.2))

/-- Set-like insert into a member list: Go map-key insert. -/
def insertS (l : List String) (s : String) : List String :=
  if s ∈ l then l else l ++ [s]

/-- Set-like delete from a member list. -/
def removeS (l : List String) (s : String) : List String :=
  l.filter (fun x => x ≠ s)

/-- Default peer liveness windows (`peer.go`): 3 seconds' silence is
evasive, 5 seconds' silence is expired.  Times are Unix seconds. -/
def peerEvasive : Nat := 3

def peerExpired : Nat := 5

/-- Engine-level protocol message: the `msg.Transit` value the actor
handles, with the per-kind fields it reads.  Content payloads are byte
lists; names, groups and endpoints are strings. -/
inductive GMsg where
  | hello (sequence : Nat) (endpoint : String) (groups : List String)
      (status : Nat) (name : String) (headers : List (String × String))
  | whisper (sequence : Nat) (content : List Nat)
  | shout (sequence : Nat) (group : String) (content : List Nat)
  | join (sequence : Nat) (group : String) (status : Nat)
  | leave (sequence : Nat) (group : String) (status : Nat)
  | ping (sequence : Nat)
  | pingOk (sequence : Nat)
  deriving DecidableEq, Repr

/-- `Sequence()` accessor. -/
def GMsg.sequence : GMsg → Nat
  | .hello s _ _ _ _ _ => s
  | .whisper s _ => s
  | .shout s _ _ => s
  | .join s _ _ => s
  | .leave s _ _ => s
  | .ping s => s
  | .pingOk s => s

/-- `SetSequence()`: stamp the per-peer outgoing sequence. -/
def GMsg.setSequence : GMsg → Nat → GMsg
  | .hello _ e g st n h, s => .hello s e g st n h
  | .whisper _ c, s => .whisper s c
  | .shout _ g c, s => .shout s g c
  | .join _ g st, s => .join s g st
  | .leave _ g st, s => .leave s g st
  | .ping _, s => .ping s
  | .pingOk _, s => .pingOk s

def GMsg.isHello : GMsg → Bool
  | .hello _ _ _ _ _ _ => true
  | _ => false

/-- The `peer` record of `peer.go`.  The zmq mailbox itself is outside
the model; `connected` stands for "the mailbox owns a live channel". -/
structure Peer where
  identity : String
  endpoint : String
  name : String
  evasiveAt : Nat
  expiredAt : Nat
  connected : Bool
  ready : Bool
  status : Nat
  sentSequence : Nat
  wantSequence : Nat
  headers : List (String × String)
  deriving DecidableEq, Repr

/-- `refresh`: push both liveness deadlines out from `now`. -/
def Peer.refresh (p : Peer) (now : Nat) : Peer :=
  { p with evasiveAt := now + peerEvasive, expiredAt := now + peerExpired }

/-- `newPeer`: zero state, name defaulting to the first 6 characters of
the identity, timers refreshed at creation time. -/
def newPeer (identity : String) (now : Nat) : Peer :=
  Peer.refresh
    ⟨identity, "", identity.take 6, 0, 0, false, false, 0, 0, 0, []⟩ now

/-- `connect`: install the outbound channel; connected, not ready. -/
def Peer.connect (p : Peer) (endpoint : String) : Peer :=
  { p with endpoint := endpoint, connected := true, ready := false }

/-- `disconnect`: drop the mailbox, clear the endpoint, lose readiness.
No-op when not connected. -/
def Peer.disconnect (p : Peer) : Peer :=
  if p.connected then
    { p with endpoint := "", connected := false, ready := false }
  else p

/-- `send`: when connected, pre-increment `sentSequence` (mod 2^16),
stamp it on the message and attempt transmission; a transport error
(`ok = false`, chosen by the environment) triggers a local disconnect.
Silently a no-op when not connected.  Returns the transmitted frame. -/
def Peer.send (ok : Bool) (p : Peer) (m : GMsg) : Peer × Option GMsg :=
  if p.connected then
    let seq := (p.sentSequence + 1) % 65536
    let p1 := { p with sentSequence := seq }
    if ok then (p1, some (m.setSequence seq)) else (p1.disconnect, none)
  else (p, none)

/-- `checkMessage`: pre-increment `wantSequence` (mod 2^16, Go `uint16`
wrap), accept when it matches the incoming sequence, otherwise undo the
increment. -/
def Peer.checkMessage (p : Peer) (m : GMsg) : Bool × Peer :=
  let w := (p.wantSequence + 1) % 65536
  if w = m.sequence then (true, { p with wantSequence := w })
  else (false, p)

/-- `group.join`: insert the peer under its identity (a duplicate join
leaves the key set unchanged) and bump the peer's status counter. -/
def groupJoin (members : List String) (p : Peer) : List String × Peer :=
  (insertS members p.identity, { p with status := (p.status + 1) % 256 })

/-- `group.leave`: delete the peer and bump its status counter. -/
def groupLeave (members : List String) (p : Peer) : List String × Peer :=
  (removeS members p.identity, { p with status := (p.status + 1) % 256 })

/-- The mutable state of the node actor (`node.go`), restricted to the
fields the protocol handlers touch.  Sockets, channels and the beacon
are outside the model. -/
structure Node where
  endpoint : String
  name : String
  status : Nat
  peers : List (String × Peer)
  peerGroups : List (String × List String)
  ownGroups : List String
  headers : List (String × String)
  deriving DecidableEq, Repr

/-- A fresh node: no peers, no groups, status counter zero. -/
def newNode (endpoint name : String) : Node :=
  ⟨endpoint, name, 0, [], [], [], []⟩

def Node.updatePeer (n : Node) (id : String) (f : Peer → Peer) : Node :=
  { n with peers := updateA n.peers id f }

/-- Send a frame to the peer's mailbox, keeping the updated record. -/
def Node.sendToPeer (n : Node) (id : String) (m : GMsg)
    (ok : String → Bool) : Node × Option GMsg :=
  match lookupA n.peers id with
  | none => (n, none)
  | some p =>
      let r := Peer.send (ok id) p m
      ({ n with peers := insertA n.peers id r.1 }, r.2)

/-- The HELLO handshake frame built from current own state
(`requirePeer` in `node.go`). -/
def helloOf (n : Node) : GMsg :=
  .hello 0 n.endpoint n.ownGroups n.status n.name n.headers

/-- `requirePeer`: return an existing record; otherwise disconnect any
peer squatting on the same endpoint, create a fresh peer, connect it
and send HELLO as the first outgoing frame, then insert it. -/
def Node.requirePeer (n : Node) (id endpoint : String) (now : Nat)
    (ok : String → Bool) : Node :=
  match lookupA n.peers id with
  | some _ => n
  | none =>
      let purged := n.peers.map (fun kv =>
        (kv.1, if kv.2.endpoint = endpoint then kv.2.disconnect else kv.2))
      let p := (newPeer id now).connect endpoint
      let r := Peer.send (ok id) p (helloOf n)
      { n with peers := insertA purged id r.1 }

/-- `removePeer`: drop the peer from every peer group, then delete the
record (the status bumps `group.leave` performs on the doomed record
vanish with it). -/
def Node.removePeer (n : Node) (id : String) : Node :=
  { n with
    peerGroups := n.peerGroups.map (fun g => (g.1, removeS g.2 id)),
    peers := removeA n.peers id }

/-- `joinPeerGroup`: ensure the group exists, run `group.join` on the
tracked peer record.  (The handlers only call this for identities in
the peer map; the fallback mirrors the raw pointer insert.) -/
def Node.joinPeerGroup (n : Node) (id g : String) : Node :=
  let ms := (lookupA n.peerGroups g).getD []
  match lookupA n.peers id with
  | some p =>
      let r := groupJoin ms p
      { n with peerGroups := insertA n.peerGroups g r.1,
               peers := insertA n.peers id r.2 }
  | none =>
      { n with peerGroups := insertA n.peerGroups g (insertS ms id) }

/-- `leavePeerGroup`: ensure the group exists, run `group.leave`. -/
def Node.leavePeerGroup (n : Node) (id g : String) : Node :=
  let ms := (lookupA n.peerGroups g).getD []
  match lookupA n.peers id with
  | some p =>
      let r := groupLeave ms p
      { n with peerGroups := insertA n.peerGroups g r.1,
               peers := insertA n.peers id r.2 }
  | none =>
      { n with peerGroups := insertA n.peerGroups g (removeS ms id) }

/-- Command dispatch for an accepted non-HELLO frame (`recvFromPeer`
switch).  `none` models the process aborting on the JOIN/LEAVE status
assertion.  The HELLO arm is handled before dispatch and not reached
here. -/
def Node.dispatch (n : Node) (id : String) (m : GMsg) (now : Nat)
    (ok : String → Bool) : Option Node :=
  match m with
  | .hello _ _ _ _ _ _ => some n
  | .whisper _ _ => some (n.updatePeer id (fun p => p.refresh now))
  | .shout _ _ _ => some (n.updatePeer id (fun p => p.refresh now))
  | .ping _ =>
      let r := n.sendToPeer id (.pingOk 0) ok
      some (r.1.updatePeer id (fun p => p.refresh now))
  | .pingOk _ => some (n.updatePeer id (fun p => p.refresh now))
  | .join _ g st =>
      let n1 := n.joinPeerGroup id g
      match lookupA n1.peers id with
      | some q =>
          if st = q.status then
            some (n1.updatePeer id (fun p => p.refresh now))
          else none
      | none => none
  | .leave _ g st =>
      let n1 := n.leavePeerGroup id g
      match lookupA n1.peers id with
      | some q =>
          if st = q.status then
            some (n1.updatePeer id (fun p => p.refresh now))
          else none
      | none => none

/-- Continuation of `recvFromPeer` once the HELLO pre-phase has decided
which node state to proceed on: find-or-create the peer, mark it ready,
sequence-check, then store the HELLO fields, join the listed groups,
take the peer's status and refresh. -/
def Node.helloCont (n : Node) (id : String) (seq : Nat) (ep : String)
    (gs : List String) (st : Nat) (nm : String)
    (hs : List (String × String)) (now : Nat) (ok : String → Bool) :
    Option Node :=
  let n1 := n.requirePeer id ep now ok
  let n2 := n1.updatePeer id (fun p => { p with ready := true })
  match lookupA n2.peers id with
  | none => some n2
  | some p =>
      let w := (p.wantSequence + 1) % 65536
      if seq = w then
        let n3 := n2.updatePeer id
          (fun q => { q with wantSequence := w, name := nm })
        let n4 := n3.updatePeer id (fun q =>
          { q with headers := hs.foldl (fun a kv => insertA a kv.1 kv.2) q.headers })
        let n5 := gs.foldl (fun a g => a.joinPeerGroup id g) n4
        let n6 := n5.updatePeer id (fun q => { q with status := st })
        some (n6.updatePeer id (fun q => q.refresh now))
      else some n2

/-- `recvFromPeer`: the router-socket handler.  A HELLO may create or
promote the peer (destroying a stale ready record first, or ignoring an
echo of ourselves); any other kind requires an existing ready peer,
else the frame is dropped and a half-open record is removed.  Accepted
frames pass the sequence check and are dispatched; `none` models the
JOIN/LEAVE status assertion aborting the process. -/
def Node.recvFromPeer (n : Node) (id : String) (m : GMsg) (now : Nat)
    (ok : String → Bool) : Option Node :=
  match m with
  | .hello seq ep gs st nm hs =>
      match lookupA n.peers id with
      | some p =>
          if p.ready then
            Node.helloCont (n.removePeer id) id seq ep gs st nm hs now ok
          else if n.endpoint = p.endpoint then some n
          else Node.helloCont n id seq ep gs st nm hs now ok
      | none => Node.helloCont n id seq ep gs st nm hs now ok
  | _ =>
      match lookupA n.peers id with
      | none => some n
      | some p =>
          if p.ready then
            let r := p.checkMessage m
            if r.1 then
              Node.dispatch (n.updatePeer id (fun _ => r.2)) id m now ok
            else some n
          else some (n.removePeer id)

/-- `cmdJoin`: join an own group; a duplicate join sends nothing.  The
status counter is advanced before the JOIN is cloned to each peer.
Returns the frames actually transmitted, tagged by recipient. -/
def Node.apiJoin (n : Node) (g : String) (ok : String → Bool) :
    Node × List (String × GMsg) :=
  if g ∈ n.ownGroups then (n, [])
  else
    let st := (n.status + 1) % 256
    let sends := n.peers.map (fun kv =>
      (kv.1, Peer.send (ok kv.1) kv.2 (.join 0 g st)))
    ({ n with ownGroups := n.ownGroups ++ [g], status := st,
              peers := sends.map (fun x => (x.1, x.2.1)) },
     sends.filterMap (fun x => x.2.2.map (fun m => (x.1, m))))

/-- `cmdLeave`: leave an own group; a leave for a group not joined
sends nothing.  Status advances before the LEAVE goes out; the own
group entry is deleted after the sends. -/
def Node.apiLeave (n : Node) (g : String) (ok : String → Bool) :
    Node × List (String × GMsg) :=
  if g ∈ n.ownGroups then
    let st := (n.status + 1) % 256
    let sends := n.peers.map (fun kv =>
      (kv.1, Peer.send (ok kv.1) kv.2 (.leave 0 g st)))
    ({ n with ownGroups := removeS n.ownGroups g, status := st,
              peers := sends.map (fun x => (x.1, x.2.1)) },
     sends.filterMap (fun x => x.2.2.map (fun m => (x.1, m))))
  else (n, [])

/-- `cmdShout`: clone the SHOUT to every member of the peer group. -/
def Node.apiShout (n : Node) (g : String) (content : List Nat)
    (ok : String → Bool) : Node :=
  match lookupA n.peerGroups g with
  | none => n
  | some ms =>
      ms.foldl (fun a id => (a.sendToPeer id (.shout 0 g content) ok).1) n

/-- `cmdWhisper`: send to one peer's mailbox if it exists. -/
def Node.apiWhisper (n : Node) (id : String) (content : List Nat)
    (ok : String → Bool) : Node :=
  (n.sendToPeer id (.whisper 0 content) ok).1

/-- `pingPeer`, run once per reaper tick per peer: expired peers are
removed; evasive peers are sent a PING (on every tick while they stay
in the window).  Returns the transmitted frames. -/
def Node.pingPeer (n : Node) (id : String) (now : Nat)
    (ok : String → Bool) : Node × List (String × GMsg) :=
  match lookupA n.peers id with
  | none => (n, [])
  | some p =>
      if now ≥ p.expiredAt then (n.removePeer id, [])
      else if now ≥ p.evasiveAt then
        let r := n.sendToPeer id (.ping 0) ok
        (r.1, match r.2 with | some m => [(id, m)] | none => [])
      else (n, [])

/-- The reaper tick (`ping` in `node.go`): run `pingPeer` over the
peers known at the start of the tick. -/
def Node.tick (n : Node) (now : Nat) (ok : String → Bool) :
    Node × List (String × GMsg) :=
  (n.peers.map Prod.fst).foldl
    (fun acc id =>
      let r := acc.1.pingPeer id now ok
      (r.1, acc.2 ++ r.2)) (n, [])

/-- `terminate` (shutdown): disconnect and delete every peer.  The peer
group maps are left as they are. -/
def Node.terminate (n : Node) : Node :=
  { n with peers := [] }

/-- Beacon signal with a live port, and a gossip observation: find or
create the peer, then refresh it. -/
def Node.beaconRequire (n : Node) (id endpoint : String) (now : Nat)
    (ok : String → Bool) : Node :=
  (n.requirePeer id endpoint now ok).updatePeer id (fun p => p.refresh now)

/-- One input of the live actor loop (terminate is separate). -/
inductive Op where
  | recv (id : String) (m : GMsg) (now : Nat)
  | beaconAlive (id endpoint : String) (now : Nat)
  | beaconExit (id : String)
  | cmdJoin (g : String)
  | cmdLeave (g : String)
  | cmdShout (g : String) (content : List Nat)
  | cmdWhisper (id : String) (content : List Nat)
  | reap (now : Nat)
  deriving Repr

/-- Apply one actor-loop input to the node state; `none` is the
process aborting on the JOIN/LEAVE status assertion. -/
def Node.applyOp (n : Node) (op : Op) (ok : String → Bool) : Option Node :=
  match op with
  | .recv id m now => n.recvFromPeer id m now ok
  | .beaconAlive id ep now => some (n.beaconRequire id ep now ok)
  | .beaconExit id => some (n.removePeer id)
  | .cmdJoin g => some (Node.apiJoin n g ok).1
  | .cmdLeave g => some (Node.apiLeave n g ok).1
  | .cmdShout g c => some (n.apiShout g c ok)
  | .cmdWhisper id c => some (n.apiWhisper id c ok)
  | .reap now => some (n.tick now ok).1

/-- IP3: every member of every peer group is a tracked peer. -/
def Inv (n : Node) : Prop :=
  ∀ g ∈ n.peerGroups, ∀ id ∈ g.2, (lookupA n.peers id).isSome

instance (n : Node) : Decidable (Inv n) := by
  unfold Inv
  infer_instance

/-- Peer records are stored under their own identity — the engine only
ever inserts `peers[identity] = newPeer(identity)` and never rewrites
the identity field. -/
def WellKeyed (n : Node) : Prop :=
  ∀ kv ∈ n.peers, kv.2.identity = kv.1

instance (n : Node) : Decidable (WellKeyed n) := by
  unfold WellKeyed
  infer_instance

end Gyre

namespace ZreMsg

theorem readU16_append (v : Nat) (r : List Nat) :
    readU16 (putU16 v ++ r) = (v % 65536, r) := by
  simp only [putU16, List.cons_append, List.nil_append, readU16]
  rw [Prod.mk.injEq]
  refine ⟨by omega, rfl⟩

theorem readU32_append (v : Nat) (r : List Nat) :
    readU32 (putU32 v ++ r) = (v % 4294967296, r) := by
  simp only [putU32, List.cons_append, List.nil_append, readU32]
  rw [Prod.mk.injEq]
  refine ⟨by omega, rfl⟩

theorem readU64_append (v : Nat) (r : List Nat) :
    readU64 (putU64 v ++ r) = (v % 18446744073709551616, r) := by
  simp only [putU64, List.cons_append, List.nil_append, readU64]
  rw [Prod.mk.injEq]
  refine ⟨by omega, rfl⟩

theorem readU8_append (v : Nat) (r : List Nat) :
    readU8 (putU8 v ++ r) = (v % 256, r) := by
  simp only [putU8, List.cons_append, List.nil_append, readU8]

theorem putString_short (s : List Nat) (h : s.length ≤ 255) :
    putString s = s.length :: s := by
  simp [putString, StringMax, Nat.min_eq_left h]

theorem readNBytes_exact (s r : List Nat) :
    readNBytes s.length (s ++ r) = (s, r) := by
  simp [readNBytes, List.take_left, List.drop_left]

theorem getString_append (s r : List Nat) (h : s.length ≤ 255) :
    getString (putString s ++ r) = (s, r) := by
  rw [putString_short s h]
  simp only [List.cons_append, getString, readU8]
  exact readNBytes_exact s r

theorem getLongString_append (s r : List Nat) (h : s.length < 4294967296) :
    getLongString (putLongString s ++ r) = (s, r) := by
  simp only [putLongString, List.append_assoc, getLongString,
    readU32_append, Nat.mod_eq_of_lt h]
  exact readNBytes_exact s r

theorem getBytes_append (d r : List Nat)
    (h : d.length < 18446744073709551616) :
    getBytes (putBytes d ++ r) = (d, r) := by
  simp only [putBytes, List.append_assoc, getBytes,
    readU64_append, Nat.mod_eq_of_lt h]
  exact readNBytes_exact d r

theorem readLongStrings_append (gs : List (List Nat)) (r : List Nat)
    (h : ∀ g ∈ gs, g.length < 4294967296) :
    readLongStrings gs.length ((gs.map putLongString).flatten ++ r) =
      (gs, r) := by
  induction gs with
  | nil => simp [readLongStrings]
  | cons g gs ih =>
      simp only [List.map_cons, List.flatten_cons, List.length_cons,
        List.append_assoc, readLongStrings]
      rw [getLongString_append g _ (h g (by simp))]
      rw [ih (fun x hx => h x (by simp [hx]))]

theorem readKeyVals_append (hs : List (List Nat × List Nat)) (r : List Nat)
    (h : ∀ kv ∈ hs, kv.1.length ≤ 255 ∧ kv.2.length < 4294967296) :
    readKeyVals hs.length
      ((hs.map (fun kv => putString kv.1 ++ putLongString kv.2)).flatten
        ++ r) = (hs, r) := by
  induction hs with
  | nil => simp [readKeyVals]
  | cons kv hs ih =>
      simp only [List.map_cons, List.flatten_cons, List.length_cons,
        List.append_assoc, readKeyVals]
      rw [getString_append kv.1 _ (h kv (by simp)).1]
      rw [getLongString_append kv.2 _ (h kv (by simp)).2]
      rw [ih (fun x hx => h x (by simp [hx]))]

theorem checkHeader_append (id seq : Nat) (r : List Nat)
    (hid : id < 256) (hseq : seq < 65536) :
    checkHeader id (putHeader id seq ++ r) = some (seq, r) := by
  simp only [putHeader, List.append_assoc, checkHeader,
    readU16_append, readU8_append, Nat.mod_eq_of_lt hid,
    Nat.mod_eq_of_lt hseq]
  norm_num [Signature]

end ZreMsg

namespace ZreMsg


theorem hello_unmarshal_frame (seq : Nat) (ep : List Nat)
    (gs : List (List Nat)) (st : Nat) (nm : List Nat)
    (hs : List (List Nat × List Nat))
    (h1 : seq < 65536) (h2 : ep.length ≤ 255)
    (h3 : gs.length < 4294967296)
    (h4 : ∀ g ∈ gs, g.length < 4294967296)
    (h5 : st < 256) (h6 : nm.length ≤ 255)
    (h7 : hs.length < 4294967296)
    (h8 : ∀ kv ∈ hs, kv.1.length ≤ 255 ∧ kv.2.length < 4294967296) :
    Hello.Unmarshal (putHeader HelloId seq ++ (putString ep ++
      (putU32 gs.length ++ ((gs.map putLongString).flatten ++
      (putU8 st ++ (putString nm ++ (putU32 hs.length ++
      (hs.map (fun kv => putString kv.1 ++ putLongString kv.2)).flatten))))))) =
    some ⟨seq, ep, gs, st, nm, hs⟩ := by
  unfold Hello.Unmarshal
  rw [checkHeader_append HelloId seq _ (by norm_num) h1]
  simp only
  rw [getString_append ep _ h2]
  simp only
  rw [readU32_append, Nat.mod_eq_of_lt h3]
  simp only
  rw [readLongStrings_append gs _ h4]
  simp only
  rw [readU8_append, Nat.mod_eq_of_lt h5]
  simp only
  rw [getString_append nm _ h6]
  simp only
  rw [readU32_append, Nat.mod_eq_of_lt h7]
  simp only
  rw [show (hs.map (fun kv => putString kv.1 ++ putLongString kv.2)).flatten =
      (hs.map (fun kv => putString kv.1 ++ putLongString kv.2)).flatten ++ []
      by simp,
    readKeyVals_append hs [] h8]

theorem whisper_unmarshal_frame (seq : Nat) (c : List Nat)
    (h1 : seq < 65536) (h2 : c.length < 18446744073709551616) :
    Whisper.Unmarshal (putHeader WhisperId seq ++ putBytes c) =
      some ⟨seq, c⟩ := by
  unfold Whisper.Unmarshal
  rw [checkHeader_append WhisperId seq _ (by norm_num) h1]
  simp only
  rw [show putBytes c = putBytes c ++ [] by simp, getBytes_append c [] h2]

theorem shout_unmarshal_frame (seq : Nat) (g c : List Nat)
    (h1 : seq < 65536) (h2 : g.length ≤ 255)
    (h3 : c.length < 18446744073709551616) :
    Shout.Unmarshal (putHeader ShoutId seq ++ (putString g ++ putBytes c)) =
      some ⟨seq, g, c⟩ := by
  unfold Shout.Unmarshal
  rw [checkHeader_append ShoutId seq _ (by norm_num) h1]
  simp only
  rw [getString_append g _ h2]
  simp only
  rw [show putBytes c = putBytes c ++ [] by simp, getBytes_append c [] h3]

theorem join_unmarshal_frame (seq : Nat) (g : List Nat) (st : Nat)
    (h1 : seq < 65536) (h2 : g.length ≤ 255) (h3 : st < 256) :
    Join.Unmarshal (putHeader JoinId seq ++ (putString g ++ putU8 st)) =
      some ⟨seq, g, st⟩ := by
  unfold Join.Unmarshal
  rw [checkHeader_append JoinId seq _ (by norm_num) h1]
  simp only
  rw [getString_append g _ h2]
  simp only
  rw [show putU8 st = putU8 st ++ [] by simp, readU8_append,
    Nat.mod_eq_of_lt h3]

theorem leave_unmarshal_frame (seq : Nat) (g : List Nat) (st : Nat)
    (h1 : seq < 65536) (h2 : g.length ≤ 255) (h3 : st < 256) :
    Leave.Unmarshal (putHeader LeaveId seq ++ (putString g ++ putU8 st)) =
      some ⟨seq, g, st⟩ := by
  unfold Leave.Unmarshal
  rw [checkHeader_append LeaveId seq _ (by norm_num) h1]
  simp only
  rw [getString_append g _ h2]
  simp only
  rw [show putU8 st = putU8 st ++ [] by simp, readU8_append,
    Nat.mod_eq_of_lt h3]

theorem ping_unmarshal_frame (seq : Nat) (h1 : seq < 65536) :
    Ping.Unmarshal (putHeader PingId seq) = some ⟨seq⟩ := by
  unfold Ping.Unmarshal
  rw [show putHeader PingId seq = putHeader PingId seq ++ [] by simp,
    checkHeader_append PingId seq _ (by norm_num) h1]

theorem pingOk_unmarshal_frame (seq : Nat) (h1 : seq < 65536) :
    PingOk.Unmarshal (putHeader PingOkId seq) = some ⟨seq⟩ := by
  unfold PingOk.Unmarshal
  rw [show putHeader PingOkId seq = putHeader PingOkId seq ++ [] by simp,
    checkHeader_append PingOkId seq _ (by norm_num) h1]

/-- The generic unmarshaller reads the signature and the id off the
front of a well-formed frame and dispatches on the id. -/
theorem unmarshal_dispatch (id seq : Nat) (r : List Nat)
    (hid : id < 256) :
    Unmarshal (putHeader id seq ++ r) =
      (let frame := putHeader id seq ++ r
       if id = HelloId then (Hello.Unmarshal frame).map .hello
       else if id = WhisperId then (Whisper.Unmarshal frame).map .whisper
       else if id = ShoutId then (Shout.Unmarshal frame).map .shout
       else if id = JoinId then (Join.Unmarshal frame).map .join
       else if id = LeaveId then (Leave.Unmarshal frame).map .leave
       else if id = PingId then (Ping.Unmarshal frame).map .ping
       else if id = PingOkId then (PingOk.Unmarshal frame).map .pingOk
       else none) := by
  unfold Unmarshal
  simp only [putHeader, List.append_assoc, readU16_append, readU8_append,
    Nat.mod_eq_of_lt hid]
  norm_num

/-- C1: for every ZRE v2 message of any of the seven kinds whose
short-string fields (endpoint, group, name, header keys) are at most
255 bytes and whose long-string fields are at most 2^32-1 bytes (the
remaining fields lying in the ranges the Go struct types impose),
unmarshalling the frame produced by marshalling the message yields the
message back. -/
theorem claim_c1_roundtrip (t : Transit) (h : Valid t) :
    Unmarshal (Marshal t) = some t := by
  cases t with
  | hello x =>
      simp only [Valid] at h
      simp only [Marshal]
      unfold Hello.Marshal
      simp only [List.append_assoc]
      rw [unmarshal_dispatch HelloId x.sequence _ (by norm_num)]
      norm_num
      rw [hello_unmarshal_frame x.sequence x.Endpoint x.Groups x.Status
        x.Name x.Headers h.1 h.2.1 h.2.2.1 h.2.2.2.1 h.2.2.2.2.1
        h.2.2.2.2.2.1 h.2.2.2.2.2.2.1 h.2.2.2.2.2.2.2]
  | whisper x =>
      simp only [Valid] at h
      simp only [Marshal]
      unfold Whisper.Marshal
      rw [unmarshal_dispatch WhisperId x.sequence _ (by norm_num)]
      norm_num
      rw [whisper_unmarshal_frame x.sequence x.Content h.1 h.2]
  | shout x =>
      simp only [Valid] at h
      simp only [Marshal]
      unfold Shout.Marshal
      simp only [List.append_assoc]
      rw [unmarshal_dispatch ShoutId x.sequence _ (by norm_num)]
      norm_num
      rw [shout_unmarshal_frame x.sequence x.Group x.Content h.1 h.2.1 h.2.2]
  | join x =>
      simp only [Valid] at h
      simp only [Marshal]
      unfold Join.Marshal
      simp only [List.append_assoc]
      rw [unmarshal_dispatch JoinId x.sequence _ (by norm_num)]
      norm_num
      rw [join_unmarshal_frame x.sequence x.Group x.Status h.1 h.2.1 h.2.2]
  | leave x =>
      simp only [Valid] at h
      simp only [Marshal]
      unfold Leave.Marshal
      simp only [List.append_assoc]
      rw [unmarshal_dispatch LeaveId x.sequence _ (by norm_num)]
      norm_num
      rw [leave_unmarshal_frame x.sequence x.Group x.Status h.1 h.2.1 h.2.2]
  | ping x =>
      simp only [Valid] at h
      simp only [Marshal]
      unfold Ping.Marshal
      rw [show putHeader PingId x.sequence = putHeader PingId x.sequence ++ []
          by simp,
        unmarshal_dispatch PingId x.sequence _ (by norm_num)]
      norm_num
      rw [ping_unmarshal_frame x.sequence h]
  | pingOk x =>
      simp only [Valid] at h
      simp only [Marshal]
      unfold PingOk.Marshal
      rw [show putHeader PingOkId x.sequence =
          putHeader PingOkId x.sequence ++ [] by simp,
        unmarshal_dispatch PingOkId x.sequence _ (by norm_num)]
      norm_num
      rw [pingOk_unmarshal_frame x.sequence h]

/-- Witness for C1: a concrete HELLO carrying one group and two
headers round-trips through marshal and unmarshal. -/
theorem claim_c1_roundtrip_witness :
    Valid (.hello ⟨9, [116, 99, 112], [[71, 49]], 3, [110],
      [([97], [120]), ([98], [121, 122])]⟩) ∧
    Unmarshal (Marshal (.hello ⟨9, [116, 99, 112], [[71, 49]], 3, [110],
      [([97], [120]), ([98], [121, 122])]⟩)) =
      some (.hello ⟨9, [116, 99, 112], [[71, 49]], 3, [110],
        [([97], [120]), ([98], [121, 122])]⟩) :=
  ⟨by decide, claim_c1_roundtrip _ (by decide)⟩

theorem putString_length (s : List Nat) :
    (putString s).length = 1 + min s.length 255 := by
  simp [putString, StringMax]
  omega

theorem putLongString_length (s : List Nat) :
    (putLongString s).length = 4 + s.length := by
  simp [putLongString, putU32]
  omega

/-- C9 counterexample: the headers of a HELLO live in a Go map, and
`Hello.Marshal` iterates that map, so the same message value (the two
header sequences below are permutations of one another, i.e. the same
map) marshals to different byte sequences depending on the iteration
order the runtime picks. -/
theorem claim_c9_counterexample :
    ([([97], [120]), ([98], [121])] : List (List Nat × List Nat)).Perm
      [([98], [121]), ([97], [120])] ∧
    Hello.Marshal ⟨9, [101], [], 3, [110], [([97], [120]), ([98], [121])]⟩ ≠
      Hello.Marshal ⟨9, [101], [], 3, [110],
        [([98], [121]), ([97], [120])]⟩ := by
  constructor
  · decide
  · decide

/-- C9 amended: marshalling is a deterministic function of the field
values together with the header-map iteration order; it is
order-independent whenever the map has at most one entry, and every
length field counts exactly the bytes of the (possibly truncated)
field it prefixes, so the frame length is the exact sum of the field
footprints. -/
theorem claim_c9_amended :
    (∀ a b : Hello, a.sequence = b.sequence → a.Endpoint = b.Endpoint →
      a.Groups = b.Groups → a.Status = b.Status → a.Name = b.Name →
      a.Headers.Perm b.Headers → a.Headers.length ≤ 1 →
      a.Marshal = b.Marshal) ∧
    (∀ h : Hello, (Hello.Marshal h).length =
      6 + (1 + min h.Endpoint.length 255) +
      (4 + (h.Groups.map (fun g => 4 + g.length)).sum) +
      1 + (1 + min h.Name.length 255) +
      (4 + (h.Headers.map
        (fun kv => (1 + min kv.1.length 255) + (4 + kv.2.length))).sum)) := by
  constructor
  · intro a b e1 e2 e3 e4 e5 hp hl
    have hH : a.Headers = b.Headers := by
      match hA : a.Headers, hl with
      | [], _ =>
          rw [hA] at hp
          exact (List.perm_nil.mp hp.symm).symm
      | [x], _ =>
          rw [hA] at hp
          exact (List.perm_singleton.mp hp.symm).symm
    cases a
    cases b
    simp only at e1 e2 e3 e4 e5 hH
    subst e1 e2 e3 e4 e5 hH
    rfl
  · intro h
    simp only [Hello.Marshal, putHeader, List.append_assoc,
      List.length_append, putU16, putU8, putU32, List.length_cons,
      List.length_nil, putString_length, List.length_flatten,
      List.map_map, Function.comp_def, putLongString_length,
      List.length_map]
    omega

/-- Witness for C9 amended: a single-header HELLO marshals
order-independently and its frame length is the exact field sum. -/
theorem claim_c9_amended_witness :
    Hello.Marshal ⟨1, [101], [], 2, [110], [([97], [120])]⟩ =
      Hello.Marshal ⟨1, [101], [], 2, [110], [([97], [120])]⟩ ∧
    (Hello.Marshal ⟨1, [101], [], 2, [110], [([97], [120])]⟩).length = 26 :=
  ⟨claim_c9_amended.1 _ _ rfl rfl rfl rfl rfl (List.Perm.refl _) (by decide),
   (claim_c9_amended.2 _).trans (by decide)⟩

end ZreMsg

namespace Gyre


theorem lookupA_insertA {α : Type} (l : List (String × α)) (k : String)
    (v : α) (q : String) :
    lookupA (insertA l k v) q = if q = k then some v else lookupA l q := by
  induction l with
  | nil =>
      by_cases h : q = k
      · subst h
        simp [insertA, lookupA]
      · have h2 : ¬ (k = q) := fun e => h e.symm
        simp [insertA, lookupA, h, h2]
  | cons kv r ih =>
      simp only [insertA]
      by_cases h : kv.1 = k
      · rw [if_pos h]
        by_cases h2 : q = k
        · subst h2
          simp [lookupA]
        · have h3 : ¬ (k = q) := fun e => h2 e.symm
          have h4 : ¬ (kv.1 = q) := fun e => h2 (e.symm.trans h)
          simp only [lookupA, if_neg h3, if_neg h2, if_neg h4]
      · rw [if_neg h]
        by_cases h2 : kv.1 = q
        · have h3 : ¬ (q = k) := fun e => h (h2.trans e)
          simp only [lookupA, if_pos h2, if_neg h3]
        · simp only [lookupA, if_neg h2, ih]

theorem lookupA_removeA {α : Type} (l : List (String × α)) (k q : String) :
    lookupA (removeA l k) q = if q = k then none else lookupA l q := by
  induction l with
  | nil => simp [removeA, lookupA]
  | cons kv r ih =>
      simp only [removeA]
      by_cases h : kv.1 = k
      · rw [if_pos h, ih]
        by_cases h2 : q = k
        · rw [if_pos h2, if_pos h2]
        · have h4 : ¬ (kv.1 = q) := fun e => h2 (e.symm.trans h)
          simp only [lookupA, if_neg h2, if_neg h4]
      · rw [if_neg h]
        by_cases h2 : kv.1 = q
        · have h3 : ¬ (q = k) := fun e => h (h2.trans e)
          simp only [lookupA, if_pos h2, if_neg h3]
        · simp only [lookupA, if_neg h2, ih]

theorem lookupA_updateA {α : Type} (l : List (String × α)) (k : String)
    (f : α → α) (q : String) :
    lookupA (updateA l k f) q =
      if q = k then (lookupA l k).map f else lookupA l q := by
  induction l with
  | nil => simp [updateA, lookupA]
  | cons kv r ih =>
      simp only [updateA, List.map_cons]
      by_cases h : kv.1 = k
      · by_cases h2 : q = k
        · subst h2
          have h3 : kv.1 = q := h
          simp [lookupA, if_pos h, if_pos h3]
        · have h4 : ¬ (kv.1 = q) := fun e => h2 (e.symm.trans h)
          simp only [lookupA, if_neg h2, if_neg h4]
          have := ih
          simp only [updateA] at this
          rw [this, if_neg h2]
      · by_cases h2 : kv.1 = q
        · have h3 : ¬ (q = k) := fun e => h (h2.trans e)
          simp only [lookupA, if_pos h2, if_neg h3, if_neg h]
        · simp only [lookupA, if_neg h2, if_neg h]
          have := ih
          simp only [updateA] at this
          rw [this]

theorem lookupA_mapVals {α : Type} (l : List (String × α))
    (f : String × α → α) (q : String) :
    (lookupA (l.map (fun kv => (kv.1, f kv))) q).isSome =
      (lookupA l q).isSome := by
  induction l with
  | nil => simp [lookupA]
  | cons kv r ih =>
      by_cases h : kv.1 = q <;> simp [lookupA, h, ih]

theorem mem_insertS (l : List String) (s x : String) :
    x ∈ insertS l s ↔ x ∈ l ∨ x = s := by
  unfold insertS
  by_cases h : s ∈ l
  · rw [if_pos h]
    constructor
    · exact Or.inl
    · intro hx
      cases hx with
      | inl h2 => exact h2
      | inr h2 => exact h2 ▸ h
  · rw [if_neg h]
    simp [List.mem_append]

theorem mem_removeS (l : List String) (s x : String) :
    x ∈ removeS l s ↔ x ∈ l ∧ x ≠ s := by
  simp [removeS]

/-- On a non-HELLO frame, `recvFromPeer` reduces to the ready-guard,
sequence-check and dispatch pipeline. -/
theorem recv_nonhello_eq (n : Node) (id : String) (m : GMsg) (now : Nat)
    (ok : String → Bool) (hm : m.isHello = false) :
    n.recvFromPeer id m now ok =
      (match lookupA n.peers id with
       | none => some n
       | some p =>
           if p.ready then
             let r := p.checkMessage m
             if r.1 then
               Node.dispatch (n.updatePeer id (fun _ => r.2)) id m now ok
             else some n
           else some (n.removePeer id)) := by
  cases m with
  | hello a b c d e f => simp [GMsg.isHello] at hm
  | whisper a b => rfl
  | shout a b c => rfl
  | join a b c => rfl
  | leave a b c => rfl
  | ping a => rfl
  | pingOk a => rfl

/-- C2: `checkMessage` pre-increments `wantSequence` modulo 2^16 and
accepts exactly when the advanced value equals the incoming sequence,
keeping the advance; on a mismatch the counter is rolled back to its
prior value and `false` is returned, every other field of the record
untouched in both cases; the engine then drops the mismatched frame,
leaving the node — in particular all peer state — unchanged. -/
theorem claim_c2_check_message (p : Peer) (m : GMsg) (n : Node)
    (id : String) (q : Peer) (now : Nat) (ok : String → Bool)
    (hq : lookupA n.peers id = some q) (hr : q.ready = true)
    (hm : m.isHello = false)
    (hseq : m.sequence ≠ (q.wantSequence + 1) % 65536) :
    ((p.checkMessage m).1 = true ↔
      (p.wantSequence + 1) % 65536 = m.sequence) ∧
    (p.checkMessage m).2 =
      (if (p.wantSequence + 1) % 65536 = m.sequence
       then { p with wantSequence := (p.wantSequence + 1) % 65536 }
       else p) ∧
    (p.checkMessage m).2.sentSequence = p.sentSequence ∧
    (p.checkMessage m).2.status = p.status ∧
    (p.checkMessage m).2.ready = p.ready ∧
    (p.checkMessage m).2.connected = p.connected ∧
    (p.checkMessage m).2.headers = p.headers ∧
    n.recvFromPeer id m now ok = some n := by
  have hcm : p.checkMessage m =
      (if (p.wantSequence + 1) % 65536 = m.sequence
       then (true, { p with wantSequence := (p.wantSequence + 1) % 65536 })
       else (false, p)) := by
    by_cases h : (p.wantSequence + 1) % 65536 = m.sequence <;>
      simp [Peer.checkMessage, h]
  have hfields : ∀ v : Bool × Peer, v = p.checkMessage m →
      v.2.sentSequence = p.sentSequence ∧ v.2.status = p.status ∧
      v.2.ready = p.ready ∧ v.2.connected = p.connected ∧
      v.2.headers = p.headers := by
    intro v hv
    rw [hv, hcm]
    by_cases h : (p.wantSequence + 1) % 65536 = m.sequence <;> simp [h]
  refine ⟨?_, ?_, (hfields _ rfl).1, (hfields _ rfl).2.1,
    (hfields _ rfl).2.2.1, (hfields _ rfl).2.2.2.1,
    (hfields _ rfl).2.2.2.2, ?_⟩
  · rw [hcm]
    by_cases h : (p.wantSequence + 1) % 65536 = m.sequence <;> simp [h]
  · rw [hcm]
    by_cases h : (p.wantSequence + 1) % 65536 = m.sequence <;> simp [h]
  · rw [recv_nonhello_eq n id m now ok hm, hq]
    simp only [hr, if_true]
    have : (q.checkMessage m).1 = false := by
      unfold Peer.checkMessage
      simp only
      rw [if_neg (fun e => hseq e.symm)]
    simp [this]

/-- Witness for C2 at a concrete peer, node and mismatched PING. -/
theorem claim_c2_check_message_witness :
    (lookupA (Node.mk "tcp://me" "me" 0
        [("AA", ⟨"AA", "tcp://x", "AA", 3, 5, true, true, 0, 0, 0, []⟩)]
        [] [] []).peers "AA" =
      some ⟨"AA", "tcp://x", "AA", 3, 5, true, true, 0, 0, 0, []⟩) ∧
    ((⟨"AA", "tcp://x", "AA", 3, 5, true, true, 0, 0, 0, []⟩ :
        Peer).ready = true) ∧
    ((GMsg.ping 7).isHello = false) ∧
    ((GMsg.ping 7).sequence ≠
      ((⟨"AA", "tcp://x", "AA", 3, 5, true, true, 0, 0, 0, []⟩ :
        Peer).wantSequence + 1) % 65536) ∧
    (Node.mk "tcp://me" "me" 0
        [("AA", ⟨"AA", "tcp://x", "AA", 3, 5, true, true, 0, 0, 0, []⟩)]
        [] [] []).recvFromPeer "AA" (GMsg.ping 7) 4 (fun _ => true) =
      some (Node.mk "tcp://me" "me" 0
        [("AA", ⟨"AA", "tcp://x", "AA", 3, 5, true, true, 0, 0, 0, []⟩)]
        [] [] []) :=
  ⟨by decide, by decide, by decide, by decide,
   (claim_c2_check_message
     ⟨"AA", "tcp://x", "AA", 3, 5, true, true, 0, 0, 0, []⟩
     (GMsg.ping 7)
     (Node.mk "tcp://me" "me" 0
       [("AA", ⟨"AA", "tcp://x", "AA", 3, 5, true, true, 0, 0, 0, []⟩)]
       [] [] [])
     "AA" ⟨"AA", "tcp://x", "AA", 3, 5, true, true, 0, 0, 0, []⟩
     4 (fun _ => true)
     (by decide) (by decide) (by decide) (by decide)).2.2.2.2.2.2.2⟩

/-- C10: `group.join` on a peer that is already a member leaves the
member set unchanged yet still advances the peer's status image by one
modulo 256, so a second identical join shifts the image again — join
is not idempotent with respect to the peer's status. -/
theorem claim_c10_duplicate_join (ms : List String) (p : Peer)
    (h : p.identity ∈ ms) :
    (groupJoin ms p).1 = ms ∧
    (groupJoin ms p).2.status = (p.status + 1) % 256 ∧
    (groupJoin ms (groupJoin ms p).2).1 = ms ∧
    (groupJoin ms (groupJoin ms p).2).2.status = (p.status + 2) % 256 ∧
    (groupJoin ms (groupJoin ms p).2).2.status ≠
      (groupJoin ms p).2.status := by
  refine ⟨?_, rfl, ?_, ?_, ?_⟩
  · simp [groupJoin, insertS, h]
  · simp [groupJoin, insertS, h]
  · simp only [groupJoin]
    omega
  · simp only [groupJoin]
    omega

/-- Witness for C10 on a two-member group. -/
theorem claim_c10_duplicate_join_witness :
    ("AA" ∈ ["AA", "BB"]) ∧
    (groupJoin ["AA", "BB"]
        ⟨"AA", "tcp://x", "AA", 0, 0, true, true, 9, 0, 0, []⟩).1 =
      ["AA", "BB"] ∧
    (groupJoin ["AA", "BB"]
        ⟨"AA", "tcp://x", "AA", 0, 0, true, true, 9, 0, 0, []⟩).2.status =
      10 :=
  ⟨by decide,
   (claim_c10_duplicate_join ["AA", "BB"]
     ⟨"AA", "tcp://x", "AA", 0, 0, true, true, 9, 0, 0, []⟩ (by decide)).1,
   ((claim_c10_duplicate_join ["AA", "BB"]
     ⟨"AA", "tcp://x", "AA", 0, 0, true, true, 9, 0, 0, []⟩
     (by decide)).2.1).trans (by decide)⟩

/-- C7 counterexample: a failed send does not merely clear `connected`
and the endpoint — the pre-stamped `sentSequence` increment is kept and
`ready` is dropped too, so the resulting record differs from the one
the claim describes. -/
theorem claim_c7_counterexample :
    (Peer.send false
        ⟨"AA", "tcp://x", "AA", 3, 5, true, true, 2, 7, 4, []⟩
        (GMsg.ping 0)).1 ≠
      { (⟨"AA", "tcp://x", "AA", 3, 5, true, true, 2, 7, 4, []⟩ : Peer)
        with connected := false, endpoint := "" } := by
  decide

/-- C7 amended: a transport error on a connected peer's send
disconnects the mailbox (`connected` false, endpoint cleared) and in
addition keeps the pre-stamped `sentSequence` increment and drops
`ready`; all remaining fields are untouched, nothing is transmitted,
and — via the reaper's `pingPeer` on an evasive, not yet expired peer —
the record remains in the node's peers map in exactly that
disconnected form, group membership untouched, until expiry removes
it. -/
theorem claim_c7_amended (p : Peer) (m : GMsg) (n : Node) (id : String)
    (now : Nat) (hc : p.connected = true)
    (hn : lookupA n.peers id = some p)
    (hexp : now < p.expiredAt) (hev : p.evasiveAt ≤ now) :
    Peer.send false p m =
      ({ p with sentSequence := (p.sentSequence + 1) % 65536,
                connected := false, endpoint := "", ready := false },
       none) ∧
    lookupA (n.pingPeer id now (fun _ => false)).1.peers id =
      some { p with sentSequence := (p.sentSequence + 1) % 65536,
                    connected := false, endpoint := "", ready := false } ∧
    (n.pingPeer id now (fun _ => false)).1.peerGroups = n.peerGroups := by
  have hsend : ∀ mm : GMsg, Peer.send false p mm =
      ({ p with sentSequence := (p.sentSequence + 1) % 65536,
                connected := false, endpoint := "", ready := false },
       none) := by
    intro mm
    unfold Peer.send Peer.disconnect
    simp [hc]
  refine ⟨hsend m, ?_, ?_⟩
  · unfold Node.pingPeer
    rw [hn]
    simp only
    rw [if_neg (by omega), if_pos hev]
    unfold Node.sendToPeer
    rw [hn]
    simp only [hsend (GMsg.ping 0)]
    rw [lookupA_insertA]
    simp
  · unfold Node.pingPeer
    rw [hn]
    simp only
    rw [if_neg (by omega), if_pos hev]
    unfold Node.sendToPeer
    rw [hn]

/-- Witness for C7 amended at a concrete evasive peer. -/
theorem claim_c7_amended_witness :
    ((⟨"AA", "tcp://x", "AA", 3, 5, true, true, 2, 7, 4, []⟩ :
        Peer).connected = true) ∧
    Peer.send false ⟨"AA", "tcp://x", "AA", 3, 5, true, true, 2, 7, 4, []⟩
        (GMsg.ping 0) =
      (⟨"AA", "", "AA", 3, 5, false, false, 2, 8, 4, []⟩, none) :=
  ⟨by decide,
   ((claim_c7_amended
     ⟨"AA", "tcp://x", "AA", 3, 5, true, true, 2, 7, 4, []⟩
     (GMsg.ping 0)
     (Node.mk "tcp://me" "me" 0
       [("AA", ⟨"AA", "tcp://x", "AA", 3, 5, true, true, 2, 7, 4, []⟩)]
       [] [] [])
     "AA" 4 (by decide) (by decide) (by decide) (by decide)).1).trans
     (by decide)⟩

/-- A frame returned by `Peer.send` is the input message stamped with
some sequence number. -/
theorem send_transmitted (ok : Bool) (p : Peer) (m m' : GMsg)
    (h : (Peer.send ok p m).2 = some m') :
    ∃ s, m' = m.setSequence s := by
  unfold Peer.send at h
  by_cases hc : p.connected
  · simp only [hc, if_true] at h
    by_cases hk : ok
    · simp only [hk, if_true, Option.some_inj] at h
      exact ⟨(p.sentSequence + 1) % 65536, h.symm⟩
    · simp [hk] at h
  · simp [hc] at h

/-- C5: an own join of a new group (and an own leave of a joined one)
advances `node.status` exactly once modulo 256 before the JOIN/LEAVE
goes out, and every transmitted frame carries the advanced value; a
duplicate join, or a leave of a group not joined, transmits nothing and
leaves the node — status included — unchanged. -/
theorem claim_c5_own_status (n : Node) (g1 g2 : String)
    (ok : String → Bool)
    (h1 : g1 ∉ n.ownGroups) (h2 : g2 ∈ n.ownGroups) :
    ((Node.apiJoin n g1 ok).1.status = (n.status + 1) % 256 ∧
      g1 ∈ (Node.apiJoin n g1 ok).1.ownGroups ∧
      (∀ x ∈ (Node.apiJoin n g1 ok).2,
        ∃ s, x.2 = GMsg.join s g1 ((n.status + 1) % 256))) ∧
    Node.apiJoin n g2 ok = (n, []) ∧
    ((Node.apiLeave n g2 ok).1.status = (n.status + 1) % 256 ∧
      g2 ∉ (Node.apiLeave n g2 ok).1.ownGroups ∧
      (∀ x ∈ (Node.apiLeave n g2 ok).2,
        ∃ s, x.2 = GMsg.leave s g2 ((n.status + 1) % 256))) ∧
    Node.apiLeave n g1 ok = (n, []) := by
  refine ⟨⟨?_, ?_, ?_⟩, ?_, ⟨?_, ?_, ?_⟩, ?_⟩
  · simp [Node.apiJoin, h1]
  · simp [Node.apiJoin, h1]
  · intro x hx
    simp only [Node.apiJoin, if_neg h1, List.mem_filterMap] at hx
    obtain ⟨a, ha, hfa⟩ := hx
    simp only [List.mem_map] at ha
    obtain ⟨kv, _, hkv⟩ := ha
    rw [← hkv] at hfa
    simp only [Option.map_eq_some'] at hfa
    obtain ⟨m0, hm0, hx2⟩ := hfa
    obtain ⟨s, hs⟩ := send_transmitted _ _ _ _ hm0
    refine ⟨s, ?_⟩
    rw [← hx2]
    simp only [hs, GMsg.setSequence]
  · simp [Node.apiJoin, h2]
  · simp [Node.apiLeave, h2]
  · simp only [Node.apiLeave, if_pos h2]
    simp [mem_removeS]
  · intro x hx
    simp only [Node.apiLeave, if_pos h2, List.mem_filterMap] at hx
    obtain ⟨a, ha, hfa⟩ := hx
    simp only [List.mem_map] at ha
    obtain ⟨kv, _, hkv⟩ := ha
    rw [← hkv] at hfa
    simp only [Option.map_eq_some'] at hfa
    obtain ⟨m0, hm0, hx2⟩ := hfa
    obtain ⟨s, hs⟩ := send_transmitted _ _ _ _ hm0
    refine ⟨s, ?_⟩
    rw [← hx2]
    simp only [hs, GMsg.setSequence]
  · simp [Node.apiLeave, h1]

/-- Witness for C5: join a new group, leave it being joined, on a node
with one connected peer. -/
theorem claim_c5_own_status_witness :
    ("G1" ∉ (Node.mk "tcp://me" "me" 4
      [("AA", ⟨"AA", "tcp://x", "AA", 3, 5, true, true, 0, 0, 0, []⟩)]
      [] ["G2"] []).ownGroups) ∧
    ("G2" ∈ (Node.mk "tcp://me" "me" 4
      [("AA", ⟨"AA", "tcp://x", "AA", 3, 5, true, true, 0, 0, 0, []⟩)]
      [] ["G2"] []).ownGroups) ∧
    (Node.apiJoin (Node.mk "tcp://me" "me" 4
      [("AA", ⟨"AA", "tcp://x", "AA", 3, 5, true, true, 0, 0, 0, []⟩)]
      [] ["G2"] []) "G1" (fun _ => true)).1.status = 5 ∧
    (Node.apiJoin (Node.mk "tcp://me" "me" 4
      [("AA", ⟨"AA", "tcp://x", "AA", 3, 5, true, true, 0, 0, 0, []⟩)]
      [] ["G2"] []) "G2" (fun _ => true)) =
      (Node.mk "tcp://me" "me" 4
        [("AA", ⟨"AA", "tcp://x", "AA", 3, 5, true, true, 0, 0, 0, []⟩)]
        [] ["G2"] [], []) :=
  ⟨by decide, by decide,
   ((claim_c5_own_status (Node.mk "tcp://me" "me" 4
       [("AA", ⟨"AA", "tcp://x", "AA", 3, 5, true, true, 0, 0, 0, []⟩)]
       [] ["G2"] []) "G1" "G2" (fun _ => true)
       (by decide) (by decide)).1.1).trans (by decide),
   (claim_c5_own_status (Node.mk "tcp://me" "me" 4
       [("AA", ⟨"AA", "tcp://x", "AA", 3, 5, true, true, 0, 0, 0, []⟩)]
       [] ["G2"] []) "G1" "G2" (fun _ => true)
       (by decide) (by decide)).2.1⟩

/-- C3: on an accepted JOIN or LEAVE, the engine first applies the
group-membership update (which advances its local image of the peer's
status by one modulo 256) and then asserts the message's status field
against that image: a mismatch aborts the process, equality lets
processing complete normally. -/
theorem claim_c3_status_assert (n : Node) (id g : String) (p : Peer)
    (st seq now : Nat) (ok : String → Bool)
    (hp : lookupA n.peers id = some p) (hr : p.ready = true)
    (hs : seq = (p.wantSequence + 1) % 65536) :
    (n.recvFromPeer id (.join seq g st) now ok = none ↔
      st ≠ (p.status + 1) % 256) ∧
    (n.recvFromPeer id (.leave seq g st) now ok = none ↔
      st ≠ (p.status + 1) % 256) := by
  have hcm : ∀ m : GMsg, m.sequence = seq →
      p.checkMessage m =
        (true, { p with wantSequence := (p.wantSequence + 1) % 65536 }) := by
    intro m hm
    unfold Peer.checkMessage
    simp [hm, hs]
  have h1 : lookupA (Node.updatePeer n id (fun _ =>
      { p with wantSequence := (p.wantSequence + 1) % 65536 })).peers id =
      some { p with wantSequence := (p.wantSequence + 1) % 65536 } := by
    unfold Node.updatePeer
    rw [lookupA_updateA]
    simp [hp]
  constructor
  · rw [recv_nonhello_eq n id (GMsg.join seq g st) now ok rfl, hp]
    dsimp only
    rw [if_pos hr, hcm (GMsg.join seq g st) rfl]
    dsimp only
    rw [if_pos rfl]
    unfold Node.dispatch Node.joinPeerGroup
    dsimp only
    rw [h1]
    dsimp only [groupJoin]
    rw [lookupA_insertA]
    rw [if_pos rfl]
    by_cases hst : st = (p.status + 1) % 256 <;> simp [hst]
  · rw [recv_nonhello_eq n id (GMsg.leave seq g st) now ok rfl, hp]
    dsimp only
    rw [if_pos hr, hcm (GMsg.leave seq g st) rfl]
    dsimp only
    rw [if_pos rfl]
    unfold Node.dispatch Node.leavePeerGroup
    dsimp only
    rw [h1]
    dsimp only [groupLeave]
    rw [lookupA_insertA]
    rw [if_pos rfl]
    by_cases hst : st = (p.status + 1) % 256 <;> simp [hst]

/-- Witness for C3: an accepted JOIN whose status differs from the
post-update image aborts, at a concrete node. -/
theorem claim_c3_status_assert_witness :
    (lookupA (Node.mk "tcp://me" "me" 0
        [("AA", ⟨"AA", "tcp://x", "AA", 3, 5, true, true, 4, 0, 0, []⟩)]
        [] [] []).peers "AA" =
      some ⟨"AA", "tcp://x", "AA", 3, 5, true, true, 4, 0, 0, []⟩) ∧
    ((Node.mk "tcp://me" "me" 0
        [("AA", ⟨"AA", "tcp://x", "AA", 3, 5, true, true, 4, 0, 0, []⟩)]
        [] [] []).recvFromPeer "AA" (.join 1 "G" 9) 4 (fun _ => true) =
      none ↔ (9 : Nat) ≠ 5) :=
  ⟨by decide,
   (claim_c3_status_assert (Node.mk "tcp://me" "me" 0
       [("AA", ⟨"AA", "tcp://x", "AA", 3, 5, true, true, 4, 0, 0, []⟩)]
       [] [] []) "AA" "G"
     ⟨"AA", "tcp://x", "AA", 3, 5, true, true, 4, 0, 0, []⟩
     9 1 4 (fun _ => true) (by decide) (by decide) (by decide)).1⟩

/-- C4: only a HELLO can create or promote a peer record.  A non-HELLO
frame for an unknown identity is discarded with no state change; one
for a known but not-yet-ready record is discarded and the half-open
record removed; and a HELLO for an already-ready peer behaves exactly
as if the previous record had been destroyed before processing, so the
record that results is built fresh. -/
theorem claim_c4_hello_first (n : Node) (id1 id2 id3 : String)
    (p1 p3 : Peer) (m : GMsg) (seq : Nat) (ep : String)
    (gs : List String) (st : Nat) (nm : String)
    (hs : List (String × String)) (now : Nat) (ok : String → Bool)
    (h1 : lookupA n.peers id1 = some p1) (h2 : p1.ready = true)
    (h3 : lookupA n.peers id2 = none)
    (h4 : lookupA n.peers id3 = some p3) (h5 : p3.ready = false)
    (hm : m.isHello = false) :
    n.recvFromPeer id2 m now ok = some n ∧
    n.recvFromPeer id3 m now ok = some (n.removePeer id3) ∧
    n.recvFromPeer id1 (.hello seq ep gs st nm hs) now ok =
      (n.removePeer id1).recvFromPeer id1 (.hello seq ep gs st nm hs)
        now ok := by
  refine ⟨?_, ?_, ?_⟩
  · rw [recv_nonhello_eq n id2 m now ok hm, h3]
  · rw [recv_nonhello_eq n id3 m now ok hm, h4]
    dsimp only
    rw [if_neg (by simp [h5])]
  · conv_lhs => unfold Node.recvFromPeer
    conv_rhs => unfold Node.recvFromPeer
    dsimp only
    rw [h1]
    dsimp only
    rw [if_pos h2]
    have h6 : lookupA (n.removePeer id1).peers id1 = none := by
      unfold Node.removePeer
      dsimp only
      rw [lookupA_removeA, if_pos rfl]
    rw [h6]

/-- Witness for C4 at a concrete node with a ready, a missing and a
half-open peer. -/
theorem claim_c4_hello_first_witness :
    ((Node.mk "tcp://me" "me" 0
        [("AA", ⟨"AA", "tcp://a", "AA", 3, 5, true, true, 0, 0, 0, []⟩),
         ("CC", ⟨"CC", "tcp://c", "CC", 3, 5, true, false, 0, 1, 0, []⟩)]
        [] [] []).recvFromPeer "BB" (GMsg.ping 1) 4 (fun _ => true) =
      some (Node.mk "tcp://me" "me" 0
        [("AA", ⟨"AA", "tcp://a", "AA", 3, 5, true, true, 0, 0, 0, []⟩),
         ("CC", ⟨"CC", "tcp://c", "CC", 3, 5, true, false, 0, 1, 0, []⟩)]
        [] [] [])) ∧
    ((Node.mk "tcp://me" "me" 0
        [("AA", ⟨"AA", "tcp://a", "AA", 3, 5, true, true, 0, 0, 0, []⟩),
         ("CC", ⟨"CC", "tcp://c", "CC", 3, 5, true, false, 0, 1, 0, []⟩)]
        [] [] []).recvFromPeer "AA"
        (.hello 1 "tcp://a2" [] 0 "alice" []) 4 (fun _ => true) =
      ((Node.mk "tcp://me" "me" 0
        [("AA", ⟨"AA", "tcp://a", "AA", 3, 5, true, true, 0, 0, 0, []⟩),
         ("CC", ⟨"CC", "tcp://c", "CC", 3, 5, true, false, 0, 1, 0, []⟩)]
        [] [] []).removePeer "AA").recvFromPeer "AA"
        (.hello 1 "tcp://a2" [] 0 "alice" []) 4 (fun _ => true)) :=
  ⟨(claim_c4_hello_first (Node.mk "tcp://me" "me" 0
      [("AA", ⟨"AA", "tcp://a", "AA", 3, 5, true, true, 0, 0, 0, []⟩),
       ("CC", ⟨"CC", "tcp://c", "CC", 3, 5, true, false, 0, 1, 0, []⟩)]
      [] [] []) "AA" "BB" "CC"
      ⟨"AA", "tcp://a", "AA", 3, 5, true, true, 0, 0, 0, []⟩
      ⟨"CC", "tcp://c", "CC", 3, 5, true, false, 0, 1, 0, []⟩
      (GMsg.ping 1) 1 "tcp://a2" [] 0 "alice" [] 4 (fun _ => true)
      (by decide) (by decide) (by decide) (by decide) (by decide)
      (by decide)).1,
   (claim_c4_hello_first (Node.mk "tcp://me" "me" 0
      [("AA", ⟨"AA", "tcp://a", "AA", 3, 5, true, true, 0, 0, 0, []⟩),
       ("CC", ⟨"CC", "tcp://c", "CC", 3, 5, true, false, 0, 1, 0, []⟩)]
      [] [] []) "AA" "BB" "CC"
      ⟨"AA", "tcp://a", "AA", 3, 5, true, true, 0, 0, 0, []⟩
      ⟨"CC", "tcp://c", "CC", 3, 5, true, false, 0, 1, 0, []⟩
      (GMsg.ping 1) 1 "tcp://a2" [] 0 "alice" [] 4 (fun _ => true)
      (by decide) (by decide) (by decide) (by decide) (by decide)
      (by decide)).2.2⟩

/-- C8 (divergence witness): a peer sitting in the evasive window — at
or past `evasiveAt`, before `expiredAt` — is sent a fresh PING on
every reaper tick while it stays there (nothing records that one was
already sent), not exactly one for the whole window: two consecutive
ticks at seconds 10 and 11 both transmit a PING. -/
theorem claim_c8_ping_every_tick :
    (Node.tick (Node.mk "tcp://me" "me" 0
        [("AA", ⟨"AA", "tcp://x", "AA", 5, 20, true, true, 0, 0, 0, []⟩)]
        [] [] []) 10 (fun _ => true)).2 = [("AA", GMsg.ping 1)] ∧
    (Node.tick (Node.tick (Node.mk "tcp://me" "me" 0
        [("AA", ⟨"AA", "tcp://x", "AA", 5, 20, true, true, 0, 0, 0, []⟩)]
        [] [] []) 10 (fun _ => true)).1 11 (fun _ => true)).2 =
      [("AA", GMsg.ping 2)] := by
  refine ⟨by decide, by decide⟩

theorem mem_insertA {α : Type} (l : List (String × α)) (k : String)
    (v : α) (x : String × α) (h : x ∈ insertA l k v) :
    x = (k, v) ∨ x ∈ l := by
  induction l with
  | nil =>
      simp [insertA] at h
      exact Or.inl h
  | cons kv r ih =>
      simp only [insertA] at h
      by_cases hk : kv.1 = k
      · rw [if_pos hk] at h
        rcases List.mem_cons.mp h with h2 | h2
        · exact Or.inl h2
        · exact Or.inr (List.mem_cons_of_mem kv h2)
      · rw [if_neg hk] at h
        rcases List.mem_cons.mp h with h2 | h2
        · exact Or.inr (h2 ▸ List.mem_cons_self kv r)
        · rcases ih h2 with h3 | h3
          · exact Or.inl h3
          · exact Or.inr (List.mem_cons_of_mem kv h3)

theorem lookupA_mem {α : Type} (l : List (String × α)) (k : String)
    (v : α) (h : lookupA l k = some v) : (k, v) ∈ l := by
  induction l with
  | nil => simp [lookupA] at h
  | cons kv r ih =>
      simp only [lookupA] at h
      by_cases hk : kv.1 = k
      · rw [if_pos hk] at h
        have : kv = (k, v) := by
          cases kv
          simp only at hk
          simp only [Option.some_inj] at h
          simp [hk, h]
        exact this ▸ List.mem_cons_self kv r
      · rw [if_neg hk] at h
        exact List.mem_cons_of_mem kv (ih h)

/-- A node with the same peer groups and a peer map defined on at
least the same identities inherits the membership invariant. -/
theorem Inv_mono (n n' : Node) (hg : n'.peerGroups = n.peerGroups)
    (hp : ∀ q : String, (lookupA n.peers q).isSome = true →
      (lookupA n'.peers q).isSome = true)
    (h : Inv n) : Inv n' := by
  intro g hgmem id hid
  rw [hg] at hgmem
  exact hp id (h g hgmem id hid)

theorem inv_updatePeer (n : Node) (id : String) (f : Peer → Peer)
    (h : Inv n) : Inv (n.updatePeer id f) := by
  refine Inv_mono n _ rfl ?_ h
  intro q hq
  unfold Node.updatePeer
  dsimp only
  rw [lookupA_updateA]
  by_cases hqk : q = id
  · simp [hqk, Option.isSome_map]
    simp [hqk] at hq
    exact hq
  · rw [if_neg hqk]
    exact hq

theorem lookup_updatePeer_isSome (n : Node) (id : String) (f : Peer → Peer)
    (q : String) :
    (lookupA (n.updatePeer id f).peers q).isSome =
      (lookupA n.peers q).isSome := by
  unfold Node.updatePeer
  dsimp only
  rw [lookupA_updateA]
  by_cases hqk : q = id
  · simp [hqk, Option.isSome_map]
  · rw [if_neg hqk]

theorem inv_sendToPeer (n : Node) (id : String) (m : GMsg)
    (ok : String → Bool) (h : Inv n) : Inv (n.sendToPeer id m ok).1 := by
  unfold Node.sendToPeer
  cases hl : lookupA n.peers id with
  | none => exact h
  | some p =>
      dsimp only
      refine Inv_mono n _ rfl ?_ h
      intro q hq
      dsimp only
      rw [lookupA_insertA]
      by_cases hqk : q = id
      · simp [hqk]
      · rw [if_neg hqk]
        exact hq

theorem lookup_sendToPeer_isSome (n : Node) (id : String) (m : GMsg)
    (ok : String → Bool) (q : String) (h : (lookupA n.peers q).isSome) :
    (lookupA (n.sendToPeer id m ok).1.peers q).isSome := by
  unfold Node.sendToPeer
  cases hl : lookupA n.peers id with
  | none => exact h
  | some p =>
      dsimp only
      rw [lookupA_insertA]
      by_cases hqk : q = id
      · simp [hqk]
      · rw [if_neg hqk]
        exact h

theorem inv_removePeer (n : Node) (id : String) (h : Inv n) :
    Inv (n.removePeer id) := by
  intro g hgmem q hq
  unfold Node.removePeer at hgmem ⊢
  dsimp only at hgmem ⊢
  rcases List.mem_map.mp hgmem with ⟨g0, hg0, hgeq⟩
  rw [← hgeq] at hq
  dsimp only at hq
  rcases (mem_removeS g0.2 id q).mp hq with ⟨hq1, hq2⟩
  rw [lookupA_removeA, if_neg hq2]
  exact h g0 hg0 q hq1

theorem inv_requirePeer (n : Node) (id ep : String) (now : Nat)
    (ok : String → Bool) (h : Inv n) : Inv (n.requirePeer id ep now ok) := by
  unfold Node.requirePeer
  cases hl : lookupA n.peers id with
  | some p => exact h
  | none =>
      dsimp only
      refine Inv_mono n _ rfl ?_ h
      intro q hq
      dsimp only
      rw [lookupA_insertA]
      by_cases hqk : q = id
      · simp [hqk]
      · rw [if_neg hqk]
        rw [lookupA_mapVals]
        exact hq

theorem lookup_requirePeer_self (n : Node) (id ep : String) (now : Nat)
    (ok : String → Bool) :
    (lookupA (n.requirePeer id ep now ok).peers id).isSome := by
  unfold Node.requirePeer
  cases hl : lookupA n.peers id with
  | some p =>
      dsimp only
      rw [hl]
      rfl
  | none =>
      dsimp only
      rw [lookupA_insertA, if_pos rfl]
      rfl

theorem inv_joinPeerGroup (n : Node) (id g : String)
    (hid : (lookupA n.peers id).isSome) (hwk : WellKeyed n) (h : Inv n) :
    Inv (n.joinPeerGroup id g) := by
  unfold Node.joinPeerGroup
  cases hl : lookupA n.peers id with
  | none => rw [hl] at hid; simp at hid
  | some p =>
      dsimp only [groupJoin]
      intro g0 hg0 q hq
      dsimp only at hg0 hq ⊢
      rw [lookupA_insertA]
      by_cases hqk : q = id
      · simp [hqk]
      · rw [if_neg hqk]
        rcases mem_insertA _ _ _ _ hg0 with h2 | h2
        · rw [h2] at hq
          dsimp only at hq
          rcases (mem_insertS _ _ _).mp hq with h3 | h3
          · cases hms : lookupA n.peerGroups g with
            | none => rw [hms] at h3; simp at h3
            | some ms =>
                rw [hms] at h3
                dsimp only [Option.getD] at h3
                exact h (g, ms) (lookupA_mem _ _ _ hms) q h3
          · have hpid : p.identity = id := hwk (id, p) (lookupA_mem _ _ _ hl)
            exact absurd (h3.trans hpid) hqk
        · exact h g0 h2 q hq

theorem inv_leavePeerGroup (n : Node) (id g : String) (h : Inv n) :
    Inv (n.leavePeerGroup id g) := by
  unfold Node.leavePeerGroup
  cases hl : lookupA n.peers id with
  | none =>
      dsimp only
      intro g0 hg0 q hq
      dsimp only at hg0 hq ⊢
      rcases mem_insertA _ _ _ _ hg0 with h2 | h2
      · rw [h2] at hq
        dsimp only at hq
        rcases (mem_removeS _ _ _).mp hq with ⟨h3, _⟩
        cases hms : lookupA n.peerGroups g with
        | none => rw [hms] at h3; simp at h3
        | some ms =>
            rw [hms] at h3
            dsimp only [Option.getD] at h3
            exact h (g, ms) (lookupA_mem _ _ _ hms) q h3
      · exact h g0 h2 q hq
  | some p =>
      dsimp only [groupLeave]
      intro g0 hg0 q hq
      dsimp only at hg0 hq ⊢
      rw [lookupA_insertA]
      by_cases hqk : q = id
      · simp [hqk]
      · rw [if_neg hqk]
        rcases mem_insertA _ _ _ _ hg0 with h2 | h2
        · rw [h2] at hq
          dsimp only at hq
          rcases (mem_removeS _ _ _).mp hq with ⟨h3, _⟩
          cases hms : lookupA n.peerGroups g with
          | none => rw [hms] at h3; simp at h3
          | some ms =>
              rw [hms] at h3
              dsimp only [Option.getD] at h3
              exact h (g, ms) (lookupA_mem _ _ _ hms) q h3
        · exact h g0 h2 q hq

theorem send_identity (ok : Bool) (p : Peer) (m : GMsg) :
    (Peer.send ok p m).1.identity = p.identity := by
  unfold Peer.send
  by_cases hc : p.connected
  · by_cases hk : ok <;> simp [hc, hk, Peer.disconnect]
  · simp [hc]

theorem mem_removeA {α : Type} (l : List (String × α)) (k : String)
    (x : String × α) (h : x ∈ removeA l k) : x ∈ l := by
  induction l with
  | nil => simp [removeA] at h
  | cons kv r ih =>
      simp only [removeA] at h
      by_cases hk : kv.1 = k
      · rw [if_pos hk] at h
        exact List.mem_cons_of_mem kv (ih h)
      · rw [if_neg hk] at h
        rcases List.mem_cons.mp h with h2 | h2
        · exact h2 ▸ List.mem_cons_self kv r
        · exact List.mem_cons_of_mem kv (ih h2)

theorem wk_updatePeer (n : Node) (id : String) (f : Peer → Peer)
    (hf : ∀ p : Peer, p.identity = id → (f p).identity = id)
    (h : WellKeyed n) : WellKeyed (n.updatePeer id f) := by
  intro kv hkv
  unfold Node.updatePeer at hkv
  dsimp only at hkv
  unfold updateA at hkv
  rcases List.mem_map.mp hkv with ⟨kv0, hkv0, hkveq⟩
  rw [← hkveq]
  dsimp only
  by_cases hk : kv0.1 = id
  · rw [if_pos hk]
    exact (hf kv0.2 ((h kv0 hkv0).trans hk)).trans hk.symm
  · rw [if_neg hk]
    exact h kv0 hkv0

theorem wk_insert_peers (l : List (String × Peer))
    (id : String) (v : Peer)
    (hl : ∀ kv ∈ l, kv.2.identity = kv.1) (hv : v.identity = id) :
    ∀ kv ∈ insertA l id v, kv.2.identity = kv.1 := by
  intro kv hkv
  rcases mem_insertA _ _ _ _ hkv with h2 | h2
  · rw [h2]
    exact hv
  · exact hl kv h2

theorem wk_sendToPeer (n : Node) (id : String) (m : GMsg)
    (ok : String → Bool) (h : WellKeyed n) :
    WellKeyed (n.sendToPeer id m ok).1 := by
  unfold Node.sendToPeer
  cases hl : lookupA n.peers id with
  | none => exact h
  | some p =>
      dsimp only
      intro kv hkv
      refine wk_insert_peers n.peers id _ h ?_ kv hkv
      rw [send_identity]
      exact h (id, p) (lookupA_mem _ _ _ hl)

theorem wk_removePeer (n : Node) (id : String) (h : WellKeyed n) :
    WellKeyed (n.removePeer id) := by
  intro kv hkv
  unfold Node.removePeer at hkv
  dsimp only at hkv
  exact h kv (mem_removeA _ _ _ hkv)

theorem wk_requirePeer (n : Node) (id ep : String) (now : Nat)
    (ok : String → Bool) (h : WellKeyed n) :
    WellKeyed (n.requirePeer id ep now ok) := by
  unfold Node.requirePeer
  cases hl : lookupA n.peers id with
  | some p => exact h
  | none =>
      dsimp only
      intro kv hkv
      rcases mem_insertA _ _ _ _ hkv with h2 | h2
      · rw [h2]
        dsimp only
        rw [send_identity]
        rfl
      · rcases List.mem_map.mp h2 with ⟨kv0, hkv0, hkveq⟩
        rw [← hkveq]
        dsimp only
        by_cases he : kv0.2.endpoint = ep
        · rw [if_pos he]
          unfold Peer.disconnect
          by_cases hcn : kv0.2.connected <;> simp [hcn] <;>
            exact h kv0 hkv0
        · rw [if_neg he]
          exact h kv0 hkv0

theorem wk_joinPeerGroup (n : Node) (id g : String) (h : WellKeyed n) :
    WellKeyed (n.joinPeerGroup id g) := by
  unfold Node.joinPeerGroup
  cases hl : lookupA n.peers id with
  | none => exact h
  | some p =>
      dsimp only [groupJoin]
      intro kv hkv
      refine wk_insert_peers n.peers id _ h ?_ kv hkv
      exact h (id, p) (lookupA_mem _ _ _ hl)

theorem wk_leavePeerGroup (n : Node) (id g : String) (h : WellKeyed n) :
    WellKeyed (n.leavePeerGroup id g) := by
  unfold Node.leavePeerGroup
  cases hl : lookupA n.peers id with
  | none => exact h
  | some p =>
      dsimp only [groupLeave]
      intro kv hkv
      refine wk_insert_peers n.peers id _ h ?_ kv hkv
      exact h (id, p) (lookupA_mem _ _ _ hl)

theorem lookup_joinPeerGroup_isSome (n : Node) (id g q : String)
    (h : (lookupA n.peers q).isSome) :
    (lookupA (n.joinPeerGroup id g).peers q).isSome := by
  unfold Node.joinPeerGroup
  cases hl : lookupA n.peers id with
  | none => exact h
  | some p =>
      dsimp only
      rw [lookupA_insertA]
      by_cases hqk : q = id
      · simp [hqk]
      · rw [if_neg hqk]
        exact h

theorem good_joinFold (gs : List String) (n : Node) (id : String)
    (h1 : Inv n) (h2 : WellKeyed n)
    (h3 : (lookupA n.peers id).isSome) :
    Inv (gs.foldl (fun a g => a.joinPeerGroup id g) n) ∧
    WellKeyed (gs.foldl (fun a g => a.joinPeerGroup id g) n) ∧
    (lookupA (gs.foldl (fun a g => a.joinPeerGroup id g) n).peers
      id).isSome := by
  induction gs generalizing n with
  | nil => exact ⟨h1, h2, h3⟩
  | cons g gs ih =>
      simp only [List.foldl_cons]
      exact ih (n.joinPeerGroup id g)
        (inv_joinPeerGroup n id g h3 h2 h1)
        (wk_joinPeerGroup n id g h2)
        (lookup_joinPeerGroup_isSome n id g id h3)

theorem good_helloCont (n : Node) (id : String) (seq : Nat) (ep : String)
    (gs : List String) (st : Nat) (nm : String)
    (hs : List (String × String)) (now : Nat) (ok : String → Bool)
    (n' : Node) (h1 : Inv n) (h2 : WellKeyed n)
    (heq : Node.helloCont n id seq ep gs st nm hs now ok = some n') :
    Inv n' ∧ WellKeyed n' := by
  unfold Node.helloCont at heq
  dsimp only at heq
  have g1 : Inv ((n.requirePeer id ep now ok).updatePeer id
      (fun p => { p with ready := true })) :=
    inv_updatePeer _ _ _ (inv_requirePeer n id ep now ok h1)
  have g2 : WellKeyed ((n.requirePeer id ep now ok).updatePeer id
      (fun p => { p with ready := true })) :=
    wk_updatePeer _ _ _ (fun p hp => hp) (wk_requirePeer n id ep now ok h2)
  have g3 : (lookupA ((n.requirePeer id ep now ok).updatePeer id
      (fun p => { p with ready := true })).peers id).isSome := by
    rw [lookup_updatePeer_isSome]
    exact lookup_requirePeer_self n id ep now ok
  cases hl : lookupA ((n.requirePeer id ep now ok).updatePeer id
      (fun p => { p with ready := true })).peers id with
  | none =>
      rw [hl] at heq
      dsimp only at heq
      injection heq with heq2
      rw [← heq2]
      exact ⟨g1, g2⟩
  | some p =>
      rw [hl] at heq
      dsimp only at heq
      by_cases hw : seq = (p.wantSequence + 1) % 65536
      · rw [if_pos hw] at heq
        injection heq with heq2
        rw [← heq2]
        have g4 : Inv (((n.requirePeer id ep now ok).updatePeer id
            (fun p => { p with ready := true })).updatePeer id
            (fun q =>
              { q with wantSequence := (p.wantSequence + 1) % 65536, name := nm })) := inv_updatePeer _ _ _ g1
        have g5 : WellKeyed (((n.requirePeer id ep now ok).updatePeer id
            (fun p => { p with ready := true })).updatePeer id
            (fun q =>
              { q with wantSequence := (p.wantSequence + 1) % 65536, name := nm })) := wk_updatePeer _ _ _ (fun p hp => hp) g2
        have g6 : Inv ((((n.requirePeer id ep now ok).updatePeer id
            (fun p => { p with ready := true })).updatePeer id
            (fun q =>
              { q with wantSequence := (p.wantSequence + 1) % 65536, name := nm })).updatePeer id
            (fun q =>
              { q with headers := hs.foldl (fun a kv => insertA a kv.1 kv.2) q.headers })) :=
          inv_updatePeer _ _ _ g4
        have g7 : WellKeyed ((((n.requirePeer id ep now ok).updatePeer id
            (fun p => { p with ready := true })).updatePeer id
            (fun q =>
              { q with wantSequence := (p.wantSequence + 1) % 65536, name := nm })).updatePeer id
            (fun q =>
              { q with headers := hs.foldl (fun a kv => insertA a kv.1 kv.2) q.headers })) :=
          wk_updatePeer _ _ _ (fun p hp => hp) g5
        have g8 : (lookupA ((((n.requirePeer id ep now ok).updatePeer id
            (fun p => { p with ready := true })).updatePeer id
            (fun q =>
              { q with wantSequence := (p.wantSequence + 1) % 65536, name := nm })).updatePeer id
            (fun q =>
              { q with headers := hs.foldl (fun a kv => insertA a kv.1 kv.2) q.headers })).peers
            id).isSome := by
          rw [lookup_updatePeer_isSome, lookup_updatePeer_isSome]
          exact g3
        obtain ⟨g9, g10, _⟩ := good_joinFold gs _ id g6 g7 g8
        exact ⟨inv_updatePeer _ _ _ (inv_updatePeer _ _ _ g9),
          wk_updatePeer _ _ _ (fun p hp => hp)
            (wk_updatePeer _ _ _ (fun p hp => hp) g10)⟩
      · rw [if_neg hw] at heq
        injection heq with heq2
        rw [← heq2]
        exact ⟨g1, g2⟩

theorem good_dispatch (n : Node) (id : String) (m : GMsg) (now : Nat)
    (ok : String → Bool) (n' : Node) (h1 : Inv n) (h2 : WellKeyed n)
    (h3 : (lookupA n.peers id).isSome)
    (heq : Node.dispatch n id m now ok = some n') :
    Inv n' ∧ WellKeyed n' := by
  cases m with
  | hello a b c d e f =>
      unfold Node.dispatch at heq
      injection heq with heq2
      rw [← heq2]
      exact ⟨h1, h2⟩
  | whisper a b =>
      unfold Node.dispatch at heq
      injection heq with heq2
      rw [← heq2]
      exact ⟨inv_updatePeer _ _ _ h1, wk_updatePeer _ _ _ (fun p hp => hp) h2⟩
  | shout a b c =>
      unfold Node.dispatch at heq
      injection heq with heq2
      rw [← heq2]
      exact ⟨inv_updatePeer _ _ _ h1, wk_updatePeer _ _ _ (fun p hp => hp) h2⟩
  | pingOk a =>
      unfold Node.dispatch at heq
      injection heq with heq2
      rw [← heq2]
      exact ⟨inv_updatePeer _ _ _ h1, wk_updatePeer _ _ _ (fun p hp => hp) h2⟩
  | ping a =>
      unfold Node.dispatch at heq
      dsimp only at heq
      injection heq with heq2
      rw [← heq2]
      exact ⟨inv_updatePeer _ _ _ (inv_sendToPeer n id _ ok h1),
        wk_updatePeer _ _ _ (fun p hp => hp) (wk_sendToPeer n id _ ok h2)⟩
  | join a g st =>
      unfold Node.dispatch at heq
      dsimp only at heq
      have hj1 : Inv (n.joinPeerGroup id g) :=
        inv_joinPeerGroup n id g h3 h2 h1
      have hj2 : WellKeyed (n.joinPeerGroup id g) :=
        wk_joinPeerGroup n id g h2
      cases hl : lookupA (n.joinPeerGroup id g).peers id with
      | none => rw [hl] at heq; simp at heq
      | some q =>
          rw [hl] at heq
          dsimp only at heq
          by_cases hst : st = q.status
          · rw [if_pos hst] at heq
            injection heq with heq2
            rw [← heq2]
            exact ⟨inv_updatePeer _ _ _ hj1,
              wk_updatePeer _ _ _ (fun p hp => hp) hj2⟩
          · rw [if_neg hst] at heq
            simp at heq
  | leave a g st =>
      unfold Node.dispatch at heq
      dsimp only at heq
      have hj1 : Inv (n.leavePeerGroup id g) := inv_leavePeerGroup n id g h1
      have hj2 : WellKeyed (n.leavePeerGroup id g) :=
        wk_leavePeerGroup n id g h2
      cases hl : lookupA (n.leavePeerGroup id g).peers id with
      | none => rw [hl] at heq; simp at heq
      | some q =>
          rw [hl] at heq
          dsimp only at heq
          by_cases hst : st = q.status
          · rw [if_pos hst] at heq
            injection heq with heq2
            rw [← heq2]
            exact ⟨inv_updatePeer _ _ _ hj1,
              wk_updatePeer _ _ _ (fun p hp => hp) hj2⟩
          · rw [if_neg hst] at heq
            simp at heq

theorem checkMessage_identity (p : Peer) (m : GMsg) :
    (p.checkMessage m).2.identity = p.identity := by
  unfold Peer.checkMessage
  dsimp only
  split <;> rfl

theorem good_recv_other (n : Node) (id : String) (m : GMsg) (now : Nat)
    (ok : String → Bool) (n' : Node) (h1 : Inv n) (h2 : WellKeyed n)
    (heq : (match lookupA n.peers id with
            | none => some n
            | some p =>
                if p.ready then
                  let r := p.checkMessage m
                  if r.1 then
                    Node.dispatch (n.updatePeer id (fun _ => r.2)) id m
                      now ok
                  else some n
                else some (n.removePeer id)) = some n') :
    Inv n' ∧ WellKeyed n' := by
  cases hl : lookupA n.peers id with
  | none =>
      rw [hl] at heq
      injection heq with heq2
      rw [← heq2]
      exact ⟨h1, h2⟩
  | some p =>
      rw [hl] at heq
      dsimp only at heq
      by_cases hr : p.ready = true
      · rw [if_pos hr] at heq
        by_cases hc : (p.checkMessage m).1 = true
        · rw [if_pos hc] at heq
          refine good_dispatch _ _ _ _ _ _ (inv_updatePeer _ _ _ h1)
            (wk_updatePeer _ _ _ ?_ h2) ?_ heq
          · intro p2 hp2
            rw [checkMessage_identity]
            exact h2 (id, p) (lookupA_mem _ _ _ hl)
          · rw [lookup_updatePeer_isSome, hl]
            rfl
        · rw [if_neg hc] at heq
          injection heq with heq2
          rw [← heq2]
          exact ⟨h1, h2⟩
      · rw [if_neg hr] at heq
        injection heq with heq2
        rw [← heq2]
        exact ⟨inv_removePeer n id h1, wk_removePeer n id h2⟩

theorem good_recvFromPeer (n : Node) (id : String) (m : GMsg) (now : Nat)
    (ok : String → Bool) (n' : Node) (h1 : Inv n) (h2 : WellKeyed n)
    (heq : n.recvFromPeer id m now ok = some n') :
    Inv n' ∧ WellKeyed n' := by
  cases m with
  | hello seq ep gs st nm hs =>
      unfold Node.recvFromPeer at heq
      cases hl : lookupA n.peers id with
      | none =>
          rw [hl] at heq
          dsimp only at heq
          exact good_helloCont n id seq ep gs st nm hs now ok n' h1 h2 heq
      | some p =>
          rw [hl] at heq
          dsimp only at heq
          by_cases hr : p.ready = true
          · rw [if_pos hr] at heq
            exact good_helloCont (n.removePeer id) id seq ep gs st nm hs
              now ok n' (inv_removePeer n id h1) (wk_removePeer n id h2) heq
          · rw [if_neg hr] at heq
            by_cases he : n.endpoint = p.endpoint
            · rw [if_pos he] at heq
              injection heq with heq2
              rw [← heq2]
              exact ⟨h1, h2⟩
            · rw [if_neg he] at heq
              exact good_helloCont n id seq ep gs st nm hs now ok n' h1
                h2 heq
  | whisper a b =>
      rw [recv_nonhello_eq n id (GMsg.whisper a b) now ok rfl] at heq
      exact good_recv_other n id (GMsg.whisper a b) now ok n' h1 h2 heq
  | shout a b c =>
      rw [recv_nonhello_eq n id (GMsg.shout a b c) now ok rfl] at heq
      exact good_recv_other n id (GMsg.shout a b c) now ok n' h1 h2 heq
  | join a b c =>
      rw [recv_nonhello_eq n id (GMsg.join a b c) now ok rfl] at heq
      exact good_recv_other n id (GMsg.join a b c) now ok n' h1 h2 heq
  | leave a b c =>
      rw [recv_nonhello_eq n id (GMsg.leave a b c) now ok rfl] at heq
      exact good_recv_other n id (GMsg.leave a b c) now ok n' h1 h2 heq
  | ping a =>
      rw [recv_nonhello_eq n id (GMsg.ping a) now ok rfl] at heq
      exact good_recv_other n id (GMsg.ping a) now ok n' h1 h2 heq
  | pingOk a =>
      rw [recv_nonhello_eq n id (GMsg.pingOk a) now ok rfl] at heq
      exact good_recv_other n id (GMsg.pingOk a) now ok n' h1 h2 heq

theorem good_pingPeer (n : Node) (id : String) (now : Nat)
    (ok : String → Bool) (h1 : Inv n) (h2 : WellKeyed n) :
    Inv (n.pingPeer id now ok).1 ∧ WellKeyed (n.pingPeer id now ok).1 := by
  unfold Node.pingPeer
  cases hl : lookupA n.peers id with
  | none => exact ⟨h1, h2⟩
  | some p =>
      dsimp only
      by_cases hexp : now ≥ p.expiredAt
      · rw [if_pos hexp]
        exact ⟨inv_removePeer n id h1, wk_removePeer n id h2⟩
      · rw [if_neg hexp]
        by_cases hev : now ≥ p.evasiveAt
        · rw [if_pos hev]
          exact ⟨inv_sendToPeer n id _ ok h1, wk_sendToPeer n id _ ok h2⟩
        · rw [if_neg hev]
          exact ⟨h1, h2⟩

theorem good_pingFold (ids : List String) (acc : Node × List (String × GMsg))
    (now : Nat) (ok : String → Bool)
    (h1 : Inv acc.1) (h2 : WellKeyed acc.1) :
    Inv (ids.foldl (fun acc id =>
        let r := acc.1.pingPeer id now ok
        (r.1, acc.2 ++ r.2)) acc).1 ∧
    WellKeyed (ids.foldl (fun acc id =>
        let r := acc.1.pingPeer id now ok
        (r.1, acc.2 ++ r.2)) acc).1 := by
  induction ids generalizing acc with
  | nil => exact ⟨h1, h2⟩
  | cons i ids ih =>
      simp only [List.foldl_cons]
      exact ih _ (good_pingPeer acc.1 i now ok h1 h2).1
        (good_pingPeer acc.1 i now ok h1 h2).2

theorem good_tick (n : Node) (now : Nat) (ok : String → Bool)
    (h1 : Inv n) (h2 : WellKeyed n) :
    Inv (n.tick now ok).1 ∧ WellKeyed (n.tick now ok).1 := by
  unfold Node.tick
  exact good_pingFold _ (n, []) now ok h1 h2

theorem good_sendAll (l : List (String × Peer)) (msg : GMsg)
    (ok : String → Bool) :
    (∀ q : String,
      (lookupA ((l.map (fun kv =>
          (kv.1, Peer.send (ok kv.1) kv.2 msg))).map
          (fun x => (x.1, x.2.1))) q).isSome = (lookupA l q).isSome) ∧
    ((∀ kv ∈ l, kv.2.identity = kv.1) →
      ∀ kv ∈ (l.map (fun kv =>
          (kv.1, Peer.send (ok kv.1) kv.2 msg))).map
          (fun x => (x.1, x.2.1)), kv.2.identity = kv.1) := by
  rw [List.map_map]
  have hco : ((fun x : String × (Peer × Option GMsg) => (x.1, x.2.1)) ∘
      (fun kv : String × Peer =>
        (kv.1, Peer.send (ok kv.1) kv.2 msg))) =
      (fun kv : String × Peer =>
        (kv.1, (Peer.send (ok kv.1) kv.2 msg).1)) := by
    funext kv
    rfl
  rw [hco]
  constructor
  · intro q
    exact lookupA_mapVals l _ q
  · intro hwk kv hkv
    rcases List.mem_map.mp hkv with ⟨kv0, hkv0, hkveq⟩
    rw [← hkveq]
    dsimp only
    rw [send_identity]
    exact hwk kv0 hkv0

theorem good_apiJoin (n : Node) (g : String) (ok : String → Bool)
    (h1 : Inv n) (h2 : WellKeyed n) :
    Inv (Node.apiJoin n g ok).1 ∧ WellKeyed (Node.apiJoin n g ok).1 := by
  unfold Node.apiJoin
  by_cases hg : g ∈ n.ownGroups
  · rw [if_pos hg]
    exact ⟨h1, h2⟩
  · rw [if_neg hg]
    dsimp only
    constructor
    · refine Inv_mono n _ rfl ?_ h1
      intro q hq
      rw [(good_sendAll n.peers
        (GMsg.join 0 g ((n.status + 1) % 256)) ok).1 q]
      exact hq
    · exact fun kv hkv => (good_sendAll n.peers
        (GMsg.join 0 g ((n.status + 1) % 256)) ok).2 h2 kv hkv

theorem good_apiLeave (n : Node) (g : String) (ok : String → Bool)
    (h1 : Inv n) (h2 : WellKeyed n) :
    Inv (Node.apiLeave n g ok).1 ∧ WellKeyed (Node.apiLeave n g ok).1 := by
  unfold Node.apiLeave
  by_cases hg : g ∈ n.ownGroups
  · rw [if_pos hg]
    dsimp only
    constructor
    · refine Inv_mono n _ rfl ?_ h1
      intro q hq
      rw [(good_sendAll n.peers
        (GMsg.leave 0 g ((n.status + 1) % 256)) ok).1 q]
      exact hq
    · exact fun kv hkv => (good_sendAll n.peers
        (GMsg.leave 0 g ((n.status + 1) % 256)) ok).2 h2 kv hkv
  · rw [if_neg hg]
    exact ⟨h1, h2⟩

theorem good_shoutFold (ms : List String) (n : Node) (g : String)
    (c : List Nat) (ok : String → Bool) (h1 : Inv n) (h2 : WellKeyed n) :
    Inv (ms.foldl (fun a id =>
      (a.sendToPeer id (GMsg.shout 0 g c) ok).1) n) ∧
    WellKeyed (ms.foldl (fun a id =>
      (a.sendToPeer id (GMsg.shout 0 g c) ok).1) n) := by
  induction ms generalizing n with
  | nil => exact ⟨h1, h2⟩
  | cons i ms ih =>
      simp only [List.foldl_cons]
      exact ih _ (inv_sendToPeer n i _ ok h1) (wk_sendToPeer n i _ ok h2)

theorem good_apiShout (n : Node) (g : String) (c : List Nat)
    (ok : String → Bool) (h1 : Inv n) (h2 : WellKeyed n) :
    Inv (n.apiShout g c ok) ∧ WellKeyed (n.apiShout g c ok) := by
  unfold Node.apiShout
  cases lookupA n.peerGroups g with
  | none => exact ⟨h1, h2⟩
  | some ms => exact good_shoutFold ms n g c ok h1 h2

/-- Every live actor-loop input preserves both the group-membership
invariant and the peer-key invariant. -/
theorem good_applyOp (n : Node) (op : Op) (ok : String → Bool) (n' : Node)
    (h1 : Inv n) (h2 : WellKeyed n) (heq : n.applyOp op ok = some n') :
    Inv n' ∧ WellKeyed n' := by
  cases op with
  | recv id m now =>
      exact good_recvFromPeer n id m now ok n' h1 h2 heq
  | beaconAlive id ep now =>
      injection heq with heq2
      rw [← heq2]
      unfold Node.beaconRequire
      exact ⟨inv_updatePeer _ _ _ (inv_requirePeer n id ep now ok h1),
        wk_updatePeer _ _ _ (fun p hp => hp)
          (wk_requirePeer n id ep now ok h2)⟩
  | beaconExit id =>
      injection heq with heq2
      rw [← heq2]
      exact ⟨inv_removePeer n id h1, wk_removePeer n id h2⟩
  | cmdJoin g =>
      injection heq with heq2
      rw [← heq2]
      exact good_apiJoin n g ok h1 h2
  | cmdLeave g =>
      injection heq with heq2
      rw [← heq2]
      exact good_apiLeave n g ok h1 h2
  | cmdShout g c =>
      injection heq with heq2
      rw [← heq2]
      exact good_apiShout n g c ok h1 h2
  | cmdWhisper id c =>
      injection heq with heq2
      rw [← heq2]
      unfold Node.apiWhisper
      exact ⟨inv_sendToPeer n id _ ok h1, wk_sendToPeer n id _ ok h2⟩
  | reap now =>
      injection heq with heq2
      rw [← heq2]
      exact good_tick n now ok h1 h2

/-- C6 counterexample: the shutdown routine (`terminate`) deletes every
peer from the peers map without pruning the peer groups, so it is an
operation that removes peers from `peers` yet does not first remove
them from every group: after a HELLO has joined peer "AA" to group "G",
the invariant holds, but the post-terminate state has "AA" as a member
of "G" with an empty peers map. -/
theorem claim_c6_counterexample :
    ((newNode "tcp://me" "me").applyOp
      (Op.recv "AA" (GMsg.hello 1 "tcp://peer" ["G"] 9 "alice" []) 0)
      (fun _ => true)).isSome ∧
    Inv (((newNode "tcp://me" "me").applyOp
      (Op.recv "AA" (GMsg.hello 1 "tcp://peer" ["G"] 9 "alice" []) 0)
      (fun _ => true)).getD (newNode "" "")) ∧
    ¬ Inv ((((newNode "tcp://me" "me").applyOp
      (Op.recv "AA" (GMsg.hello 1 "tcp://peer" ["G"] 9 "alice" []) 0)
      (fun _ => true)).getD (newNode "" "")).terminate) := by
  refine ⟨by decide, by decide, by decide⟩

/-- C6 amended: at every state reachable through the live actor loop
the member set of every peer group is contained in the peers map —
every live-loop operation that deletes a peer (removePeer, from
expiry, zero-port beacons or stale-HELLO teardown) first removes it
from every peer group, and a peer is only joined to a group while it
is tracked; the invariant is preserved together with the auxiliary
fact that each peer record is keyed by its own identity.  The
shutdown routine `terminate`, which empties the peers map and exits
without touching the groups, is the one exception. -/
theorem claim_c6_amended (n : Node) (op : Op) (ok : String → Bool)
    (n' : Node) (h1 : Inv n) (h2 : WellKeyed n)
    (heq : n.applyOp op ok = some n') :
    (Inv (newNode "tcp://x" "x") ∧ WellKeyed (newNode "tcp://x" "x")) ∧
    Inv n' ∧ WellKeyed n' :=
  ⟨⟨fun g hg => by simp [newNode] at hg, fun kv hkv => by
      simp [newNode] at hkv⟩,
   good_applyOp n op ok n' h1 h2 heq⟩

/-- Witness for C6 amended: a reaper tick on a concrete node with one
expired peer keeps the invariant. -/
theorem claim_c6_amended_witness :
    Inv (Node.mk "tcp://me" "me" 0
      [("AA", ⟨"AA", "tcp://x", "AA", 3, 5, true, true, 0, 0, 0, []⟩)]
      [("G", ["AA"])] [] []) ∧
    WellKeyed (Node.mk "tcp://me" "me" 0
      [("AA", ⟨"AA", "tcp://x", "AA", 3, 5, true, true, 0, 0, 0, []⟩)]
      [("G", ["AA"])] [] []) ∧
    ((Node.mk "tcp://me" "me" 0
      [("AA", ⟨"AA", "tcp://x", "AA", 3, 5, true, true, 0, 0, 0, []⟩)]
      [("G", ["AA"])] [] []).applyOp (Op.reap 9) (fun _ => true)).isSome ∧
    Inv (((Node.mk "tcp://me" "me" 0
      [("AA", ⟨"AA", "tcp://x", "AA", 3, 5, true, true, 0, 0, 0, []⟩)]
      [("G", ["AA"])] [] []).applyOp (Op.reap 9)
      (fun _ => true)).getD (newNode "" "")) :=
  ⟨by decide, by decide, by decide,
   (claim_c6_amended (Node.mk "tcp://me" "me" 0
      [("AA", ⟨"AA", "tcp://x", "AA", 3, 5, true, true, 0, 0, 0, []⟩)]
      [("G", ["AA"])] [] []) (Op.reap 9) (fun _ => true)
      (((Node.mk "tcp://me" "me" 0
        [("AA", ⟨"AA", "tcp://x", "AA", 3, 5, true, true, 0, 0, 0, []⟩)]
        [("G", ["AA"])] [] []).applyOp (Op.reap 9)
        (fun _ => true)).getD (newNode "" ""))
      (by decide) (by decide) (by decide)).2.1⟩

end Gyre
